import Mathlib

/-!
# Verification of the Coto catalog price-normalization engine

A shallow embedding, in Lean 4, of the price-comparison userscript's core:

* `src/utils.js` — locale price parsing and formatting (`parsePrice`,
  `formatPrice`, `formatApiPrice`) and the unit-category classifiers
  (`normalizeUnitType`, `cFormatoToUnitType`, `unitLabel`);
* `src/badges.js` — the rendered-entry normalizer `extractProductData`;
* `src/api.js` — the dialect-A (Endeca) and dialect-B (BFF) record
  normalizers (`parseEndecaRecord`, `calcDiscountRatio`, `parseBffRecord`),
  response navigation (`findResultsList`, `isValidBffResponse`) and the
  paginated retrieval with fallback (`scrapeViaEndeca`, `scrapeViaBff`,
  `scrapeAllPages`);
* the on-page sort engine (`sortProducts`, `resetOrder`).

Modelling conventions:

* JavaScript numbers are modelled as exact rationals `ℚ`; a possibly-NaN
  number is `Option ℚ` with `none` for NaN.  (Prices in this program are
  small decimals; float rounding is not modelled.)
* Strings are Lean `String`s; character-level work happens on `List Char`.
* JS regular expressions are modelled by hand-written matchers that follow
  the regexes' leftmost-match, ordered-alternation, greedy semantics on the
  shapes of text this program processes.
* `JSON.parse` of the `product.dtoDescuentos` attribute is modelled by
  storing the already-decoded descriptor array on the record (a failed
  parse is the empty array, as in the `try`/`catch`).
* Network fetches are modelled by a "world" function from page/offset to
  response; the bounded-concurrency batches append their results in request
  order, so they are modelled by order-preserving sequential traversal.
-/

namespace CotoSorter

/-! ## Character and string helpers -/

/-- ASCII lower-casing, as `String.prototype.toLowerCase` acts on the ASCII
letters that appear in this program's vocabulary. -/
def lowerChar (c : Char) : Char :=
  if 'A' ≤ c ∧ c ≤ 'Z' then Char.ofNat (c.toNat + 32) else c

/-- The JS `\s` class restricted to the whitespace characters that occur in
the processed text. -/
def wsC (c : Char) : Bool := c.isWhitespace

/-- Numeric value of a digit character. -/
def digVal (c : Char) : ℕ := c.toNat - 48

/-- Value of a most-significant-first digit-character list. -/
def digitsValN (l : List Char) : ℕ := l.foldl (fun a c => 10 * a + digVal c) 0

/-- Little-endian digit list of `n` (base 10), with explicit fuel so the
kernel can evaluate it.  `toDigitsRev n` uses fuel `n`. -/
def toDigitsRevAux : ℕ → ℕ → List ℕ
  | 0, _ => []
  | fuel + 1, n => if n = 0 then [] else (n % 10) :: toDigitsRevAux fuel (n / 10)

/-- Decimal representation of a natural number, most significant digit
first — the integer part produced by `Number.prototype.toFixed`. -/
def natRepr (n : ℕ) : List Char :=
  if n = 0 then ['0'] else ((toDigitsRevAux n n).map Nat.digitChar).reverse

/-- Drop-in for `l.reverse` chunking: insert `'.'` after every third
character of a reversed digit list. -/
def group3Rev : List Char → List Char
  | [] => []
  | [a] => [a]
  | [a, b] => [a, b]
  | [a, b, c] => [a, b, c]
  | a :: b :: c :: d :: rest => a :: b :: c :: '.' :: group3Rev (d :: rest)

/-- The thousands-grouping regex
`replace(/\B(?=(\d{3})+(?!\d))/g, ".")` on a digit string: a dot before
every position from which a positive multiple of three digits runs to the
end. -/
def groupThousands (l : List Char) : List Char := (group3Rev l.reverse).reverse

/-- Replace the first `','` by `'.'` — `String.prototype.replace(",", ".")`. -/
def replaceFirstComma : List Char → List Char
  | [] => []
  | c :: cs => if c = ',' then '.' :: cs else c :: replaceFirstComma cs

/-- Fractional value of digit characters after a decimal point. -/
def fracValQ (l : List Char) : ℚ := (digitsValN l : ℚ) / (10 : ℚ) ^ l.length

/-- Model of JS `parseFloat` on decimal notation: skip leading whitespace,
optional sign, then the longest `digits[.digits]` or `.digits` prefix; NaN
(`none`) when no numeric prefix exists.  Exponent notation never occurs in
this program's inputs and is not modelled. -/
def jsParseFloat (s0 : List Char) : Option ℚ :=
  let s1 := s0.dropWhile wsC
  let neg : Bool := s1.head? = some '-'
  let s2 := if s1.head? = some '-' ∨ s1.head? = some '+' then s1.tail else s1
  let ints := s2.takeWhile Char.isDigit
  let rest := s2.dropWhile Char.isDigit
  let sgn : ℚ := if neg then -1 else 1
  if ints = [] then
    match rest with
    | '.' :: r2 =>
        let fr := r2.takeWhile Char.isDigit
        if fr = [] then none else some (sgn * fracValQ fr)
    | _ => none
  else
    match rest with
    | '.' :: r2 => some (sgn * ((digitsValN ints : ℚ) + fracValQ (r2.takeWhile Char.isDigit)))
    | _ => some (sgn * (digitsValN ints : ℚ))

/-! ## `utils.js` — price parsers and unit classifiers -/

/-- `parsePrice` cleaning plus `parseFloat`, on the character list of the
input: strips `$`, whitespace and `.`, converts the first `,` to `.`. -/
def parsePriceCore (l : List Char) : Option ℚ :=
  jsParseFloat
    (replaceFirstComma
      (((l.filter (fun c => c ≠ '$')).filter (fun c => ¬ wsC c)).filter (fun c => c ≠ '.')))

/-- `utils.parsePrice(raw)`: `null`/`undefined` give NaN (`none`); otherwise
clean the string and `parseFloat` it. -/
def parsePrice (raw : Option String) : Option ℚ :=
  match raw with
  | none => none
  | some s => parsePriceCore s.data

/-- The common body of `formatPrice`/`formatApiPrice` on a non-NaN number:
`num.toFixed(2)` (round half away from zero at the second decimal — on the
exact rationals modelled here, `⌊100·q + 1/2⌋`), thousands-grouping of the
integer part, `"$" + intPart + "," + frac`. -/
def formatPriceCore (q : ℚ) : List Char :=
  let n : ℤ := ⌊q * 100 + 1 / 2⌋
  let m : ℕ := n.natAbs
  '$' :: ((if n < 0 then ['-'] else []) ++ groupThousands (natRepr (m / 100)))
    ++ ',' :: [Nat.digitChar (m % 100 / 10), Nat.digitChar (m % 10)]

/-- `utils.formatPrice(num)`: the em-dash sentinel for NaN, otherwise the
formatted price. -/
def formatPrice (x : Option ℚ) : String :=
  match x with
  | none => "—"
  | some q => String.mk (formatPriceCore q)

/-- `utils.formatApiPrice(raw)` applied to a numeric argument (as in
`api.js`): `parseFloat(String(raw))` returns the number itself, so a NaN
argument yields `null` and a finite one the formatted price. -/
def formatApiPrice (raw : Option ℚ) : Option String :=
  match raw with
  | none => none
  | some q => some (String.mk (formatPriceCore q))

/-- Interpolating a possibly-`null` string into a JS template literal
(`${x}`) prints the literal text `"null"`. -/
def strOrNull (o : Option String) : String := o.getD "null"

/-- Trim leading and trailing whitespace. -/
def trimChars (l : List Char) : List Char :=
  ((l.dropWhile wsC).reverse.dropWhile wsC).reverse

/-- `String.prototype.trim`. -/
def trimS (s : String) : String := String.mk (trimChars s.data)

/-- Case-insensitive ASCII prefix test against an already-lowercase
pattern, returning the remainder on success. -/
def ciPrefixRest : List Char → List Char → Option (List Char)
  | [], s => some s
  | _, [] => none
  | p :: ps, c :: cs => if lowerChar c = p then ciPrefixRest ps cs else none

/-- `startsWith` after lower-casing, as the `f.startsWith("kilo")`-style
tests in `utils.js` use it on already-lowercased text. -/
def startsWithCI (pat : List Char) (s : List Char) : Bool :=
  (ciPrefixRest pat s).isSome

/-- `utils.normalizeUnitType(unitText, qty)`: lower-cased, trimmed text
matched by `startsWith` against the unit vocabulary; a grams label only
counts when the quantity string is `"100"`. -/
def normalizeUnitType (unitText : List Char) (qty : List Char) : Option String :=
  let lower := trimChars unitText
  if startsWithCI "kilo".data lower then some "weight"
  else if startsWithCI "litro".data lower then some "volume"
  else if startsWithCI "gramo".data lower ∧ qty = "100".data then some "100g"
  else if startsWithCI "cuadrado".data lower then some "square"
  else if startsWithCI "unidad".data lower then some "unit"
  else none

/-- `utils.cFormatoToUnitType(cFormato)`: falsy input gives `null`;
otherwise trimmed lower-cased `startsWith` tests. -/
def cFormatoToUnitType (s : String) : Option String :=
  if s.data = [] then none
  else
    let f := trimChars s.data
    if startsWithCI "kilo".data f ∨ startsWithCI "kg".data f then some "weight"
    else if startsWithCI "litro".data f ∨ startsWithCI "lt".data f then some "volume"
    else if startsWithCI "100".data f then some "100g"
    else if startsWithCI "metro".data f then some "square"
    else if startsWithCI "unidad".data f ∨ startsWithCI "uni".data f then some "unit"
    else none

/-- `utils.unitLabel(unitType)`. -/
def unitLabel (ut : String) : String :=
  if ut = "weight" then "kg"
  else if ut = "volume" then "L"
  else if ut = "100g" then "100g"
  else if ut = "square" then "m²"
  else if ut = "unit" then "u"
  else "?"

/-! ## `badges.js` — regex matchers for the rendered-entry normalizer

`UNIT_PRICE_REGEX`:
`/Precio\s+por\s+(?:1|100)\s+(Kilo(?:gramo)?(?:\s+escurrido)?|Litro|[Gg]ramos?|[Cc]uadrado|[Uu]nidad)\s*:\s*\$([\d\.,]+)/i`

`UNIT_QTY_REGEX`: `/Precio\s+por\s+(1|100)\s+/i`

Regular-price fallback: `/Precio\s+Regular\s*:\s*\$([\d\.,]+)/i`
-/

/-- `\s+`: at least one whitespace character, consumed greedily. -/
def ws1 : List Char → Option (List Char)
  | [] => none
  | c :: cs => if wsC c then some ((c :: cs).dropWhile wsC) else none

/-- Exact literal token. -/
def litTok : List Char → List Char → Option (List Char)
  | [], s => some s
  | _, [] => none
  | p :: ps, c :: cs => if c = p then litTok ps cs else none

/-- `(?:1|100)\s+`, with the regex engine's ordered alternation and
backtracking: `1` followed by whitespace, else `100` followed by
whitespace; returns the quantity digits and the remainder. -/
def matchQty (s : List Char) : Option (List Char × List Char) :=
  match litTok ['1'] s with
  | none => none
  | some r =>
    match ws1 r with
    | some r2 => some (['1'], r2)
    | none =>
      match litTok ['0', '0'] r with
      | none => none
      | some r3 => (ws1 r3).map (fun r4 => (['1', '0', '0'], r4))

/-- Case-insensitive literal, returning the consumed original characters
and the remainder (the consumed text feeds the regex capture group). -/
def ciTok : List Char → List Char → Option (List Char × List Char)
  | [], s => some ([], s)
  | _, [] => none
  | p :: ps, c :: cs =>
      if lowerChar c = p then (ciTok ps cs).map (fun pr => (c :: pr.1, pr.2)) else none

/-- The unit-word alternation
`Kilo(?:gramo)?(?:\s+escurrido)?|Litro|[Gg]ramos?|[Cc]uadrado|[Uu]nidad`
(case-insensitive, greedy optionals; the alternatives start with distinct
letters, so no cross-alternative backtracking can occur). -/
def matchUnitWord (s : List Char) : Option (List Char × List Char) :=
  match ciTok "kilo".data s with
  | some (cap, r) =>
      let step1 : List Char × List Char :=
        match ciTok "gramo".data r with
        | some (cap2, r2) => (cap ++ cap2, r2)
        | none => (cap, r)
      let step2 : List Char × List Char :=
        match ws1 step1.2 with
        | some rw =>
            match ciTok "escurrido".data rw with
            | some (cap3, r3) =>
                (step1.1 ++ (step1.2.takeWhile wsC) ++ cap3, r3)
            | none => step1
        | none => step1
      some step2
  | none =>
  match ciTok "litro".data s with
  | some pr => some pr
  | none =>
  match ciTok "gramo".data s with
  | some (cap, r) =>
      match r with
      | c :: rest => if lowerChar c = 's' then some (cap ++ [c], rest) else some (cap, r)
      | [] => some (cap, r)
  | none =>
  match ciTok "cuadrado".data s with
  | some pr => some pr
  | none => ciTok "unidad".data s

/-- The character class `[\d\.,]`. -/
def priceChar (c : Char) : Bool := c.isDigit || c = '.' || c = ','

/-- `UNIT_PRICE_REGEX` anchored at the start of `s`: on success, the
captured unit word (group 1) and price text (group 2). -/
def matchUnitPriceAt (s : List Char) : Option (List Char × List Char) :=
  match ciTok "precio".data s with
  | none => none
  | some (_, r1) =>
  match ws1 r1 with
  | none => none
  | some r2 =>
  match ciTok "por".data r2 with
  | none => none
  | some (_, r3) =>
  match ws1 r3 with
  | none => none
  | some r4 =>
  match matchQty r4 with
  | none => none
  | some (_, r5) =>
  match matchUnitWord r5 with
  | none => none
  | some (word, r6) =>
  match (r6.dropWhile wsC) with
  | ':' :: r7 =>
      match r7.dropWhile wsC with
      | '$' :: r8 =>
          let digits := r8.takeWhile priceChar
          if digits = [] then none else some (word, digits)
      | _ => none
  | _ => none

/-- First (leftmost) match of `UNIT_PRICE_REGEX` in the text. -/
def findUnitPriceMatch : List Char → Option (List Char × List Char)
  | [] => none
  | c :: cs =>
    match matchUnitPriceAt (c :: cs) with
    | some m => some m
    | none => findUnitPriceMatch cs

/-- `UNIT_QTY_REGEX` anchored at the start of `s`, returning the captured
quantity. -/
def matchQtyAt (s : List Char) : Option (List Char) :=
  match ciTok "precio".data s with
  | none => none
  | some (_, r1) =>
  match ws1 r1 with
  | none => none
  | some r2 =>
  match ciTok "por".data r2 with
  | none => none
  | some (_, r3) =>
  match ws1 r3 with
  | none => none
  | some r4 => (matchQty r4).map (·.1)

/-- First match of `UNIT_QTY_REGEX` in the text. -/
def findQtyMatch : List Char → Option (List Char)
  | [] => none
  | c :: cs =>
    match matchQtyAt (c :: cs) with
    | some m => some m
    | none => findQtyMatch cs

/-- `/Precio\s+Regular\s*:\s*\$([\d\.,]+)/i` anchored at the start. -/
def matchRegularAt (s : List Char) : Option (List Char) :=
  match ciTok "precio".data s with
  | none => none
  | some (_, r1) =>
  match ws1 r1 with
  | none => none
  | some r2 =>
  match ciTok "regular".data r2 with
  | none => none
  | some (_, r3) =>
  match r3.dropWhile wsC with
  | ':' :: r4 =>
      match r4.dropWhile wsC with
      | '$' :: r5 =>
          let digits := r5.takeWhile priceChar
          if digits = [] then none else some digits
      | _ => none
  | _ => none

/-- First match of the regular-price pattern in the text. -/
def findRegularMatch : List Char → Option (List Char)
  | [] => none
  | c :: cs =>
    match matchRegularAt (c :: cs) with
    | some m => some m
    | none => findRegularMatch cs

/-! ## `badges.js` — `extractProductData` -/

/-- The DOM fragments `extractProductData` reads from one
`catalogue-product` element: the text of its `<small>` nodes, the
`h4.card-title` text (displayed price), the `data-cnstrc-item-price`
attribute and the `h3.nombre-producto` text. -/
structure ProductEl where
  smalls : List String
  cardTitle : Option String
  cnstrcItemPrice : Option String
  nombreProducto : Option String
deriving DecidableEq

/-- The record `extractProductData` returns. -/
structure ProductData where
  unitType : String
  unitRawLabel : String
  listedUnitPrice : ℚ
  adjustedUnitPrice : ℚ
  displayedPrice : Option ℚ
  regularPrice : Option ℚ
  discountRatio : ℚ
  name : String
deriving DecidableEq

/-- `isNaN(x) || x <= 0` on a possibly-NaN number. -/
def jsNanOrNonpos (x : Option ℚ) : Bool :=
  match x with
  | none => true
  | some r => decide (r ≤ 0)

/-- `!isNaN(x) && x > 0` on a possibly-NaN number. -/
def jsPos (x : Option ℚ) : Bool :=
  match x with
  | none => false
  | some r => decide (0 < r)

/-- The discount-ratio statement of `badges.js` (lines 67–70):
`displayedPrice / regularPrice` when both are positive numbers, else 1. -/
def renderedRatioOf (displayed regular : Option ℚ) : ℚ :=
  match displayed, regular with
  | some dp, some rp => if 0 < dp ∧ 0 < rp then dp / rp else 1
  | _, _ => 1

/-- The `<small>` scan of `extractProductData`: the first small whose text
matches `UNIT_PRICE_REGEX`, with the quantity captured from the same text
(default `"1"`). -/
def findUnitPriceInSmalls (smalls : List String) :
    Option (List Char × List Char × List Char) :=
  smalls.findSome? (fun t => (findUnitPriceMatch t.data).map (fun m => (m.1, m.2, t.data)))

/-- The regular-price fallback scan over the `<small>` nodes. -/
def findRegularInSmalls (smalls : List String) : Option (List Char) :=
  smalls.findSome? (fun t => findRegularMatch t.data)

/-- `badges.extractProductData(productEl)`. -/
def extractProductData (el : ProductEl) : Option ProductData :=
  match findUnitPriceInSmalls el.smalls with
  | none => none
  | some (rawUnitType, rawUnitPrice, text) =>
    let qtyStr : List Char := (findQtyMatch text).getD ['1']
    match normalizeUnitType rawUnitType qtyStr with
    | none => none
    | some type =>
      match parsePriceCore rawUnitPrice with
      | none => none
      | some listedUnitPrice =>
        if listedUnitPrice ≤ 0 then none
        else
          let displayedPrice : Option ℚ :=
            match el.cardTitle with
            | some t => parsePriceCore t.data
            | none => none
          let regular0 : Option ℚ :=
            match el.cnstrcItemPrice with
            | some a => jsParseFloat a.data
            | none => none
          let regular1 : Option ℚ :=
            if jsNanOrNonpos regular0 then
              match findRegularInSmalls el.smalls with
              | some digits => parsePriceCore digits
              | none => regular0
            else regular0
          let regular2 : Option ℚ :=
            if jsNanOrNonpos regular1 then displayedPrice
            else regular1
          let discountRatio : ℚ := renderedRatioOf displayedPrice regular2
          let name : String :=
            match el.nombreProducto with
            | some t => trimS t
            | none => "(unknown)"
          some
            { unitType := type
              unitRawLabel := String.mk rawUnitType
              listedUnitPrice := listedUnitPrice
              adjustedUnitPrice := listedUnitPrice * discountRatio
              displayedPrice := displayedPrice
              regularPrice := regular2
              discountRatio := discountRatio
              name := name }

/-! ## `api.js` — shared product shape and helpers -/

/-- The internal product record produced by both API-record normalizers
(`parseEndecaRecord` and `parseBffRecord`).  Numeric fields that can be NaN
in JS are `Option ℚ`. -/
structure Product where
  name : String
  href : Option String
  imgSrc : Option String
  priceText : Option String
  discountedPriceText : Option String
  badges : List String
  unitPriceText : Option String
  unitType : Option String
  activePrice : Option ℚ
  referencePrice : Option ℚ
  adjustedReferencePrice : Option ℚ
  discountRatio : ℚ
deriving DecidableEq

/-- JS string truthiness: `null`/`undefined`/`""` are falsy. -/
def truthyStr (o : Option String) : Bool :=
  match o with
  | none => false
  | some s => !(s.data = [])

/-- `a || b` on nullable strings. -/
def jsOrStr (a b : Option String) : Option String :=
  if truthyStr a then a else b

/-- `get(key) || dflt` where the attribute value may be absent or empty. -/
def jsOrDefault (o : Option String) (dflt : String) : String :=
  match o with
  | none => dflt
  | some s => if s.data = [] then dflt else s

/-! ## `api.js` — dialect A (Endeca) -/

/-- One decoded entry of the `product.dtoDescuentos` JSON array. -/
structure Dto where
  precioDescuento : Option String
  textoLlevando : Option String
  textoDescuento : Option String
deriving DecidableEq

/-- One `innerRecord` of the Endeca results list.  `attributes` is the
dotted-key bag (`attr[key]` is a value array); `dtoDescuentos` carries the
result of `JSON.parse(get("product.dtoDescuentos") || "[]")` with parse
failure giving `[]`; `recordState` is `detailsAction.recordState`. -/
structure InnerRecord where
  attributes : List (String × List String)
  dtoDescuentos : List Dto
  recordState : Option String
deriving DecidableEq

/-- `const get = (key) => attr[key]?.[0] ?? null`. -/
def attrGet (attrs : List (String × List String)) (key : String) : Option String :=
  match attrs.find? (fun p => p.1 = key) with
  | some p => p.2.head?
  | none => none

/-- First match of `/[\d]+(?:\.\d+)?/` in the text, parsed by `parseFloat`:
the leftmost digit run, with a following `.digits` run when present. -/
def jsMatchNumber : List Char → Option ℚ
  | [] => none
  | c :: cs =>
    if c.isDigit then
      let ds := (c :: cs).takeWhile Char.isDigit
      match (c :: cs).dropWhile Char.isDigit with
      | '.' :: r2 =>
          let fr := r2.takeWhile Char.isDigit
          if fr = [] then some ((digitsValN ds : ℚ))
          else some ((digitsValN ds : ℚ) + fracValQ fr)
      | _ => some ((digitsValN ds : ℚ))
    else jsMatchNumber cs

/-- One step of the `bestEffectivePrice` scan in `calcDiscountRatio`:
keep `pd` when it parses, is positive and beats the current best
(`Infinity` is `none`). -/
def bestStep (best : Option ℚ) (dto : Dto) : Option ℚ :=
  match jsMatchNumber ((dto.precioDescuento.getD "").data) with
  | none => best
  | some pd =>
    match best with
    | none => if 0 < pd then some pd else none
    | some b => if 0 < pd ∧ pd < b then some pd else some b

/-- The lowest parseable positive `precioDescuento` across the deal
descriptors (`Infinity`, i.e. no candidate, is `none`). -/
def bestEffectivePrice (dtoArr : List Dto) : Option ℚ :=
  dtoArr.foldl bestStep none

/-- The deal-descriptor stage of `calcDiscountRatio` (lines 357–369): the
best explicit effective price divided by the current price, only when that
best price exists and is strictly below the current price; otherwise 1. -/
def dtoStageRatio (dtoArr : List Dto) (activePrice : Option ℚ) : ℚ :=
  if dtoArr ≠ [] ∧ jsPos activePrice = true then
    match bestEffectivePrice dtoArr, activePrice with
    | some best, some ap => if best < ap then best / ap else 1
    | _, _ => 1
  else 1

/-- The `sku.listPrice` fallback stage of `calcDiscountRatio`
(lines 372–377). -/
def listStageRatio (activePrice : Option ℚ) (get : String → Option String) : ℚ :=
  match jsParseFloat (jsOrDefault (get "sku.listPrice") "0").data, activePrice with
  | some lp, some ap => if 0 < lp ∧ 0 < ap ∧ ap < lp then ap / lp else 1
  | _, _ => 1

/-- `api.calcDiscountRatio(dtoArr, activePrice, get)`: best explicit
effective price divided by the current price when strictly below it;
otherwise (ratio still 1) the `sku.listPrice` fallback. -/
def calcDiscountRatio (dtoArr : List Dto) (activePrice : Option ℚ)
    (get : String → Option String) : ℚ :=
  let r1 := dtoStageRatio dtoArr activePrice
  if r1 = 1 then listStageRatio activePrice get else r1

/-- The adjusted-reference-price statement of `parseEndecaRecord`
(lines 414–416): multiply only when the reference price is positive and
the ratio is below the 0.999 discount threshold. -/
def adjustedReferencePriceOf (referencePrice : Option ℚ) (ratio : ℚ) : Option ℚ :=
  if jsPos referencePrice = true ∧ ratio < 999 / 1000 then
    referencePrice.map (· * ratio)
  else referencePrice

/-- `api.parseBadges(dtoArr)`: `textoLlevando` pushed when truthy after
trimming, `textoDescuento` additionally de-duplicated. -/
def parseBadges (dtoArr : List Dto) : List String :=
  dtoArr.foldl
    (fun badges dto =>
      let b1 :=
        match dto.textoLlevando with
        | some s => if (trimS s).data ≠ [] then badges ++ [trimS s] else badges
        | none => badges
      match dto.textoDescuento with
      | some s => if (trimS s).data ≠ [] ∧ ¬ trimS s ∈ b1 then b1 ++ [trimS s] else b1
      | none => b1)
    []

/-- `api.parseEndecaRecord(innerRecord)`: parse one Endeca record into the
internal product shape (including `parseBasicInfo`). -/
def parseEndecaRecord (rec : InnerRecord) : Product :=
  let get := attrGet rec.attributes
  let name := jsOrDefault (jsOrStr (get "product.displayName") (get "sku.displayName")) "Producto"
  let imgSrc := jsOrStr (get "product.largeImage.url") (get "product.mediumImage.url")
  let activePrice := jsParseFloat (jsOrDefault (get "sku.activePrice") "0").data
  let referencePrice := jsParseFloat (jsOrDefault (get "sku.referencePrice") "0").data
  let unitType := cFormatoToUnitType (jsOrDefault (get "product.cFormato") "")
  let priceText := formatApiPrice activePrice
  let href : Option String :=
    if truthyStr rec.recordState then
      some ("https://www.cotodigital.com.ar/sitios/cdigi/productos"
        ++ String.mk ((rec.recordState.getD "").data.takeWhile (fun c => c ≠ '?')))
    else none
  let dtoArr := rec.dtoDescuentos
  let discountRatio := calcDiscountRatio dtoArr activePrice get
  let hasDiscount : Bool := decide (discountRatio < 999 / 1000)
  let adjustedReferencePrice := adjustedReferencePriceOf referencePrice discountRatio
  let unitPriceText : Option String :=
    if jsPos referencePrice = true ∧ unitType.isSome then
      let priceToShow := if hasDiscount then adjustedReferencePrice else referencePrice
      some ("$/" ++ unitLabel (unitType.getD "") ++ ": "
        ++ strOrNull (formatApiPrice priceToShow))
    else none
  let discountedPriceText : Option String :=
    if hasDiscount then formatApiPrice (activePrice.map (· * discountRatio)) else none
  { name := name
    href := href
    imgSrc := imgSrc
    priceText := priceText
    discountedPriceText := discountedPriceText
    badges := parseBadges dtoArr
    unitPriceText := unitPriceText
    unitType := unitType
    activePrice := activePrice
    referencePrice := referencePrice
    adjustedReferencePrice := adjustedReferencePrice
    discountRatio := discountRatio }

/-! ## `api.js` — dialect B (BFF) -/

/-- One entry of the BFF `data.price` array.  `priceWithoutTax` is a
possibly-absent, possibly-non-finite number (`numOrZero` coerces it). -/
structure BffPriceEntry where
  priceWithoutTax : Option ℚ
deriving DecidableEq

/-- One entry of the BFF `data.discounts` array (only the badge-candidate
fields are read). -/
structure BffDiscount where
  textoLlevando : Option String
  textoDescuento : Option String
  dtoName : Option String
  label : Option String
deriving DecidableEq

/-- The `data` object of one BFF result. -/
structure BffData where
  sku_display_name : Option String
  sku_description : Option String
  url : Option String
  product_large_image_url : Option String
  product_medium_image_url : Option String
  image_url : Option String
  product_format : Option String
  product_list_price : Option ℚ
  price : Option (List BffPriceEntry)
  sale_type : Option (List String)
  discounts : Option (List BffDiscount)
deriving DecidableEq

/-- An empty `data` object (`result?.data || {}`). -/
def BffData.empty : BffData :=
  { sku_display_name := none, sku_description := none, url := none
    product_large_image_url := none, product_medium_image_url := none
    image_url := none, product_format := none, product_list_price := none
    price := none, sale_type := none, discounts := none }

/-- One BFF result (`{ value, data }`). -/
structure BffResult where
  value : Option String
  data : Option BffData
deriving DecidableEq

/-- `api.numOrZero(value)`: a finite positive number, else 0. -/
def numOrZero (v : Option ℚ) : ℚ :=
  match v with
  | some n => if 0 < n then n else 0
  | none => 0

/-- `api.fromWithoutTax(priceWithoutTax)`: tax-exclusive to tax-inclusive
by the fixed 1.21 multiplier (0 for absent/nonpositive input). -/
def fromWithoutTax (v : Option ℚ) : ℚ :=
  let raw := numOrZero v
  if raw = 0 then 0 else raw * (121 / 100)

/-- `Math.max(...list)` under the `length ? … : 0` guard. -/
def maxPriceOf (l : List ℚ) : ℚ :=
  match l with
  | [] => 0
  | x :: xs => xs.foldl max x

/-- `Math.min(...list)` under the `length ? … : 0` guard. -/
def minPriceOf (l : List ℚ) : ℚ :=
  match l with
  | [] => 0
  | x :: xs => xs.foldl min x

/-- `a || b` on numbers whose falsy value is 0. -/
def orNZ (a b : ℚ) : ℚ := if a ≠ 0 then a else b

/-- The discount-ratio statement of `parseBffRecord` (lines 299–302). -/
def bffDiscountRatioOf (minPrice activePrice : ℚ) : ℚ :=
  if 0 < minPrice ∧ 0 < activePrice ∧ minPrice < activePrice then minPrice / activePrice
  else 1

/-- `/^todas\s+las\s+ofertas$/i` on a trimmed sale-type string. -/
def isTodasLasOfertas (l : List Char) : Bool :=
  (do
    let r1 ← ciPrefixRest "todas".data l
    let r2 ← ws1 r1
    let r3 ← ciPrefixRest "las".data r2
    let r4 ← ws1 r3
    let r5 ← ciPrefixRest "ofertas".data r4
    if r5 = [] then some () else none).isSome

/-- `api.parseBffBadges(data)`: non-placeholder sale types, then the badge
candidates of each discount object, de-duplicated in insertion order. -/
def parseBffBadges (d : BffData) : List String :=
  let fromSales :=
    (d.sale_type.getD []).foldl
      (fun badges sale =>
        let s := trimS sale
        if s.data = [] ∨ isTodasLasOfertas s.data then badges
        else if s ∈ badges then badges else badges ++ [s])
      []
  (d.discounts.getD []).foldl
    (fun badges dto =>
      [dto.textoLlevando, dto.textoDescuento, dto.dtoName, dto.label].foldl
        (fun bs c =>
          let text := trimS (c.getD "")
          if text.data ≠ [] ∧ ¬ text ∈ bs then bs ++ [text] else bs)
        badges)
    fromSales

/-- `api.parseBffRecord(result)`: parse one BFF result into the internal
product shape. -/
def parseBffRecord (result : BffResult) : Product :=
  let data := result.data.getD BffData.empty
  let name := jsOrDefault
    (jsOrStr (data.sku_display_name) (jsOrStr (data.sku_description) result.value)) "Producto"
  let rawPath := trimS (data.url.getD "")
  let href : Option String :=
    if rawPath.data = [] then none
    else if startsWithCI "http://".data rawPath.data ∨ startsWithCI "https://".data rawPath.data then
      some rawPath
    else
      some ("https://www.cotodigital.com.ar/sitios/cdigi/productos/"
        ++ String.mk (match rawPath.data with
                      | '/' :: rest => rest
                      | l => l))
  let imgSrc := jsOrStr data.product_large_image_url
    (jsOrStr data.product_medium_image_url data.image_url)
  let unitType := cFormatoToUnitType (jsOrDefault data.product_format "")
  let listPrice := numOrZero data.product_list_price
  let priceCandidates :=
    ((data.price.getD []).map (fun p => fromWithoutTax p.priceWithoutTax)).filter (fun n => 0 < n)
  let maxPrice := maxPriceOf priceCandidates
  let minPrice := minPriceOf priceCandidates
  let activePrice := orNZ listPrice (orNZ maxPrice (orNZ minPrice 0))
  let referencePrice := activePrice
  let discountRatio := bffDiscountRatioOf minPrice activePrice
  let hasDiscount : Bool := decide (discountRatio < 999 / 1000)
  let adjustedReferencePrice := if hasDiscount then referencePrice * discountRatio else referencePrice
  let discountedPriceText : Option String :=
    if hasDiscount then formatApiPrice (some (activePrice * discountRatio)) else none
  let priceText := formatApiPrice (some activePrice)
  let unitPriceText : Option String :=
    if 0 < referencePrice ∧ unitType.isSome then
      let priceToShow := if hasDiscount then adjustedReferencePrice else referencePrice
      some ("$/" ++ unitLabel (unitType.getD "") ++ ": "
        ++ strOrNull (formatApiPrice (some priceToShow)))
    else none
  { name := name
    href := href
    imgSrc := imgSrc
    priceText := priceText
    discountedPriceText := discountedPriceText
    badges := parseBffBadges data
    unitPriceText := unitPriceText
    unitType := unitType
    activePrice := some activePrice
    referencePrice := some referencePrice
    adjustedReferencePrice := some adjustedReferencePrice
    discountRatio := discountRatio }

/-! ## `api.js` — response navigation and paginated retrieval -/

/-- One node of the Endeca response's content tree.  JSON objects are
dynamic; each node is modelled as carrying its `@type`, its `contents`
children and the results-list payload fields (`totalNumRecs`, the nested
`records`) that are read when the node is a `Category_ResultsList`. -/
structure EndecaNode where
  typ : String
  contents : List EndecaNode
  totalNumRecs : Option ℕ
  records : List (List InnerRecord)

/-- The top of an Endeca JSON response: `data.contents[0]["Main"]`, an
optional array of slot items. -/
structure EndecaData where
  contents : List (Option (List EndecaNode))

/-- The scan of one slot item inside `findResultsList`: a `Main_Slot`'s
contents first, then the item itself, then its contents again. -/
def findResultsListInItem (it : EndecaNode) : Option EndecaNode :=
  match (if it.typ = "Main_Slot"
         then it.contents.find? (fun c => c.typ = "Category_ResultsList")
         else none) with
  | some c => some c
  | none =>
    if it.typ = "Category_ResultsList" then some it
    else it.contents.find? (fun c => c.typ = "Category_ResultsList")

/-- `api.findResultsList(data)`: navigate to the first
`Category_ResultsList` under `contents[0]["Main"]`. -/
def findResultsList (d : EndecaData) : Option EndecaNode :=
  match d.contents.head? with
  | none => none
  | some none => none
  | some (some slot) => slot.findSome? findResultsListInItem

/-- `api.extractProductsFromResultsList(resultsList)`: every inner record
of every outer record, in order (`resultsList?.records || []`; the
per-record `try`/`catch` never fires since `parseEndecaRecord` is total in
the model). -/
def extractProductsFromResultsList (rl : Option EndecaNode) : List Product :=
  ((rl.map (·.records)).getD []).flatMap (fun outer => outer.map parseEndecaRecord)

/-- One dialect-A fetch result: HTTP success flag plus parsed JSON body. -/
structure EndecaResponse where
  ok : Bool
  data : EndecaData

/-- The network as dialect A sees it: a response for each requested
offset. -/
structure EndecaWorld where
  fetch : ℕ → EndecaResponse

/-- `ENDeca_BATCH = 50`: the offsets `50, 100, …` strictly below the
total. -/
def remainingOffsets (total : ℕ) : List ℕ :=
  ((List.range ((total + 49) / 50)).map (· * 50)).filter (fun o => 0 < o)

/-- The remaining-page loop of `scrapeViaEndeca`: each offset's response
must be HTTP-ok; a missing results list on a later page contributes no
products (`extractProductsFromResultsList(findResultsList(data))`).
Batches of `ENDeca_PARALLEL` requests resolve in request order, so the
loop is modelled sequentially. -/
def scrapeEndecaRest (w : EndecaWorld) : List ℕ → Except String (List Product)
  | [] => .ok []
  | off :: rest =>
    let resp := w.fetch off
    if resp.ok = false then .error "Endeca API error" else
    match scrapeEndecaRest w rest with
    | .error e => .error e
    | .ok later => .ok (extractProductsFromResultsList (findResultsList resp.data) ++ later)

/-- `api.scrapeViaEndeca(progressCallback)` (the progress callback has no
effect on the result and is not modelled). -/
def scrapeViaEndeca (w : EndecaWorld) : Except String (List Product) :=
  let firstResp := w.fetch 0
  if firstResp.ok = false then .error "Endeca API error" else
  match findResultsList firstResp.data with
  | none => .error "Endeca response sin Category_ResultsList"
  | some rl =>
    let totalNumRecs := rl.totalNumRecs.getD 0
    match scrapeEndecaRest w (remainingOffsets totalNumRecs) with
    | .error e => .error e
    | .ok later => .ok (extractProductsFromResultsList (some rl) ++ later)

/-- The `response` object of a BFF page. -/
structure BffInner where
  total_num_results : Option ℕ
  results : Option (List BffResult)

/-- A parsed BFF JSON body (`data.response` may be absent). -/
structure BffBody where
  response : Option BffInner

/-- `api.isValidBffResponse(data)`: `Array.isArray(data?.response?.results)`. -/
def bffResults (d : BffBody) : Option (List BffResult) :=
  d.response.bind (·.results)

/-- One dialect-B fetch result. -/
structure BffResponse where
  ok : Bool
  data : BffBody

/-- The world dialect B operates in: whether a captured BFF template URL is
available (after the `waitForBffUrlInPerformance` poll), the
`num_results_per_page` value parsed from it (absent means the `"24"`
default), and a response for each requested page number. -/
structure BffWorld where
  urlFound : Bool
  nrppParam : Option ℕ
  fetch : ℕ → BffResponse

/-- `extractProductsFromBffResponse(data)`: `data?.response?.results || []`
mapped through `parseBffRecord` (total in the model, so the per-record
`try`/`catch` never fires). -/
def extractProductsFromBffResponse (d : BffBody) : List Product :=
  ((bffResults d).getD []).map parseBffRecord

/-- The later-page loop of `scrapeViaBff`: every page must be HTTP-ok and
structurally valid.  Batches of `BFF_PARALLEL` requests resolve in request
order, so the loop is modelled sequentially. -/
def scrapeBffRest (w : BffWorld) : List ℕ → Except String (List Product)
  | [] => .ok []
  | page :: rest =>
    let resp := w.fetch page
    if resp.ok = false then .error "BFF API error" else
    match bffResults resp.data with
    | none => .error "BFF response inválida: falta response.results"
    | some rs =>
      match scrapeBffRest w rest with
      | .error e => .error e
      | .ok later => .ok (rs.map parseBffRecord ++ later)

/-- `api.scrapeViaBff(progressCallback)`: fail when no BFF endpoint was
captured; fetch page 1, validate it, derive the total and page count, then
fetch pages `2 … totalPages`. -/
def scrapeViaBff (w : BffWorld) : Except String (List Product) :=
  if w.urlFound = false then
    .error "No se detectó endpoint BFF de productos en Performance. Esperá 1 segundo a que cargue resultados y volvé a intentar."
  else
    let nrpp := max 1 (w.nrppParam.getD 24)
    let firstResp := w.fetch 1
    if firstResp.ok = false then .error "BFF API error" else
    match bffResults firstResp.data with
    | none => .error "BFF response inválida: falta response.results"
    | some rs =>
      let totalNumRecs :=
        match (firstResp.data.response.bind (·.total_num_results)) with
        | some n => if n = 0 then rs.length else n
        | none => rs.length
      let totalPages := max 1 ((totalNumRecs + nrpp - 1) / nrpp)
      match scrapeBffRest w (List.range' 2 (totalPages - 1)) with
      | .error e => .error e
      | .ok later => .ok (rs.map parseBffRecord ++ later)

/-- The two dialects' worlds for one retrieval call. -/
structure ScrapeWorld where
  endeca : EndecaWorld
  bff : BffWorld

/-- `api.scrapeAllPages(progressCallback)`: try dialect A; on any failure
fall back to dialect B for the entire call, whose own failure surfaces. -/
def scrapeAllPages (w : ScrapeWorld) : Except String (List Product) :=
  match scrapeViaEndeca w.endeca with
  | .ok products => .ok products
  | .error _ => scrapeViaBff w.bff

/-! ## Sorting by a key — the stable `Array.prototype.sort`

JS `sort` with comparator `(a, b) => k(a) - k(b)` is a stable ascending
sort by `k`.  A stable sort is modelled by `List.insertionSort` under the
key order, which is stable. -/

/-- The comparator relation `(a, b) => key a - key b ≤ 0`. -/
def keyLe {α : Type*} {K : Type*} [LinearOrder K] (key : α → K) (a b : α) : Prop :=
  key a ≤ key b

instance {α : Type*} {K : Type*} [LinearOrder K] (key : α → K) :
    DecidableRel (keyLe key) :=
  fun a b => inferInstanceAs (Decidable (key a ≤ key b))

instance {α : Type*} {K : Type*} [LinearOrder K] (key : α → K) :
    IsTotal α (keyLe key) :=
  ⟨fun a b => le_total (key a) (key b)⟩

instance {α : Type*} {K : Type*} [LinearOrder K] (key : α → K) :
    IsTrans α (keyLe key) :=
  ⟨fun _ _ _ => le_trans⟩

/-! ## The on-page sort engine (`sorter.js`) -/

/-- One `.producto-card` wrapper: an opaque node identity plus the
`catalogue-product` child it may contain. -/
structure Wrapper where
  id : ℕ
  el : Option ProductEl
deriving DecidableEq

/-- `items = wrappers.map(w => ({wrapper: w, data: extractProductData(…)}))`:
the data is `null` when the wrapper has no `catalogue-product` child or the
extraction fails. -/
def pairItem (w : Wrapper) : Wrapper × Option ProductData :=
  (w, w.el.bind extractProductData)

/-- `item.data && item.data.unitType === filterType`. -/
def itemHasCat (c : String) (it : Wrapper × Option ProductData) : Bool :=
  match it.2 with
  | some d => d.unitType = c
  | none => false

/-- The comparator key `a.data.adjustedUnitPrice` (only ever read on items
that passed `itemHasCat`, which implies the data is present). -/
def itemKey (it : Wrapper × Option ProductData) : ℚ :=
  match it.2 with
  | some d => d.adjustedUnitPrice
  | none => 0

/-- `wHasCat c w`: the wrapper's extracted data exists and has category
`c`. -/
def wHasCat (c : String) (w : Wrapper) : Bool := itemHasCat c (pairItem w)

/-- The wrapper-level sort key. -/
def wKey (w : Wrapper) : ℚ := itemKey (pairItem w)

/-- The reordering `sortProducts` applies to the container's children:
partition into the chosen category's items and the rest, stably sort the
former by adjusted unit price, concatenate. -/
def sortContainer (c : String) (ws : List Wrapper) : List Wrapper :=
  let items := ws.map pairItem
  let withPrice := items.filter (itemHasCat c)
  let withoutPrice := items.filter (fun it => ! itemHasCat c it)
  ((List.insertionSort (keyLe itemKey) withPrice) ++ withoutPrice).map Prod.fst

/-- The sort engine's module state: the container's current child list,
the `originalOrder` map (wrapper → first-seen index), whether it has been
populated, and `currentFilter`.  The transient `isSorting` flag only
guards re-entrant mutation callbacks and is cleared at the next animation
frame; the modelled states are the settled ones. -/
structure SorterState where
  container : List Wrapper
  originalOrder : List (Wrapper × ℕ)
  originalOrderSaved : Bool
  currentFilter : Option String
deriving DecidableEq

/-- `wrappers.forEach((w, i) => originalOrder.set(w, i))`, from index `k`. -/
def buildOrderFrom (k : ℕ) : List Wrapper → List (Wrapper × ℕ)
  | [] => []
  | w :: ws => (w, k) :: buildOrderFrom (k + 1) ws

/-- `originalOrder.get(w)` (the wrappers are distinct DOM nodes, so the
first matching entry is the map entry). -/
def mapGet (m : List (Wrapper × ℕ)) (w : Wrapper) : Option ℕ :=
  (m.find? (fun p => p.1 = w)).map (·.2)

/-- `originalOrder.get(w) ?? Infinity`, as a sort key. -/
def ooKey (m : List (Wrapper × ℕ)) (w : Wrapper) : WithTop ℕ :=
  match mapGet m w with
  | some i => (i : WithTop ℕ)
  | none => ⊤

/-- A freshly loaded page: rendered entries, no sort performed yet. -/
def initState (es : List Wrapper) : SorterState :=
  { container := es, originalOrder := [], originalOrderSaved := false, currentFilter := none }

/-- `sorter.sortProducts(filterType)`: capture the original order on the
first sort, then reorder the container. -/
def sortProductsState (c : String) (s : SorterState) : SorterState :=
  let ws := s.container
  let oo := if s.originalOrderSaved then s.originalOrder else buildOrderFrom 0 ws
  { container := sortContainer c ws
    originalOrder := oo
    originalOrderSaved := true
    currentFilter := some c }

/-- `sorter.resetOrder()`: a no-op before any sort; otherwise stably sort
the container's children by their captured original indices and clear
`currentFilter`. -/
def resetOrderState (s : SorterState) : SorterState :=
  if s.originalOrderSaved = false then s
  else
    { container := List.insertionSort (keyLe (ooKey s.originalOrder)) s.container
      originalOrder := s.originalOrder
      originalOrderSaved := true
      currentFilter := none }

/-- A sequence of `sortProducts` calls. -/
def applySorts (cs : List String) (s : SorterState) : SorterState :=
  cs.foldl (fun st c => sortProductsState c st) s

/-! ## Concrete inputs used by counterexamples and witnesses -/

/-- A rendered entry whose heading price ($200,00) exceeds the
`data-cnstrc-item-price` regular price (100): e.g. a stale attribute. -/
def exRenderedEl : ProductEl :=
  { smalls := ["Precio por 1 Litro: $100,00"]
    cardTitle := some "$200,00"
    cnstrcItemPrice := some "100"
    nombreProducto := none }

/-- An Endeca record whose best deal price is 999.5 against a current
price of 1000: `discountRatio = 0.9995`, inside the `[0.999, 1)` band. -/
def exC2Rec : InnerRecord :=
  { attributes :=
      [("sku.activePrice", ["1000"]), ("sku.referencePrice", ["100"])]
    dtoDescuentos := [{ precioDescuento := some "$999.50"
                        textoLlevando := none, textoDescuento := none }]
    recordState := none }

/-- A BFF result with a positive list price (100) and a larger
tax-inclusive price-array entry (100 × 1.21 = 121). -/
def exC3Res : BffResult :=
  { value := none
    data := some { BffData.empty with
                    product_list_price := some 100
                    price := some [{ priceWithoutTax := some 100 }] } }

/-- An Endeca record carrying a `"3X2"` deal descriptor: current price
300, explicit effective price `$200.00c/u` (two thirds of it). -/
def exC8Rec : InnerRecord :=
  { attributes := [("sku.activePrice", ["300"])]
    dtoDescuentos := [{ precioDescuento := some "$200.00c/u"
                        textoLlevando := some "Llevando 3"
                        textoDescuento := some "3X2" }]
    recordState := none }

/-- A dialect-A world whose first response is HTTP-ok but has no
`Category_ResultsList`. -/
def exEndecaNoList : EndecaWorld :=
  { fetch := fun _ => { ok := true, data := { contents := [some []] } } }

/-- A dialect-B world with one valid page holding one record. -/
def exBffOnePage : BffWorld :=
  { urlFound := true
    nrppParam := some 24
    fetch := fun _ =>
      { ok := true
        data := { response := some { total_num_results := some 1
                                     results := some [exC3Res] } } } }

/-- A dialect-B world whose first page is HTTP-ok but structurally invalid
(no `response.results`). -/
def exBffInvalid : BffWorld :=
  { urlFound := true
    nrppParam := some 24
    fetch := fun _ => { ok := true, data := { response := none } } }

/-- Three rendered wrappers for the reset-law witness: ids 0, 1, 2; the
middle one carries the discounted litre entry. -/
def exWrappers : List Wrapper :=
  [ { id := 0, el := none }
    , { id := 1, el := some exRenderedEl }
    , { id := 2, el := some { smalls := ["Precio por 1 Kilo: $50,00"]
                              cardTitle := none
                              cnstrcItemPrice := none
                              nombreProducto := none } } ]

/-! ## Support lemmas: stable sorting by a key -/

/-- `orderedInsert` under a key order commutes with mapping, when the keys
agree along the map. -/
theorem orderedInsert_map {α β K : Type*} [LinearOrder K] (key : β → K) (key2 : α → K)
    (f : α → β) (hk : ∀ a, key2 a = key (f a)) (x : α) (l : List α) :
    List.orderedInsert (keyLe key) (f x) (l.map f)
      = (List.orderedInsert (keyLe key2) x l).map f := by
  induction l with
  | nil => rfl
  | cons y ys ih =>
    simp only [List.map_cons, List.orderedInsert]
    by_cases h : key2 x ≤ key2 y
    · have h' : keyLe key (f x) (f y) := by
        simp only [keyLe, ← hk]; exact h
      rw [if_pos h', if_pos (show keyLe key2 x y from h)]
      simp
    · have h' : ¬ keyLe key (f x) (f y) := by
        simp only [keyLe, ← hk]; exact h
      rw [if_neg h', if_neg (show ¬ keyLe key2 x y from h)]
      simp [ih]

/-- `insertionSort` under a key order commutes with mapping, when the keys
agree along the map. -/
theorem insertionSort_map {α β K : Type*} [LinearOrder K] (key : β → K) (key2 : α → K)
    (f : α → β) (hk : ∀ a, key2 a = key (f a)) (l : List α) :
    List.insertionSort (keyLe key) (l.map f)
      = (List.insertionSort (keyLe key2) l).map f := by
  induction l with
  | nil => rfl
  | cons x xs ih =>
    simp only [List.map_cons, List.insertionSort, ih]
    exact orderedInsert_map key key2 f hk x _

/-- Stability of `orderedInsert`, per key value: the subsequence of
elements with any fixed key is the same as for plain consing. -/
theorem filter_key_orderedInsert {α K : Type*} [LinearOrder K] (key : α → K) (q : K)
    (x : α) (l : List α) :
    (List.orderedInsert (keyLe key) x l).filter (fun y => decide (key y = q))
      = (x :: l).filter (fun y => decide (key y = q)) := by
  induction l with
  | nil => rfl
  | cons y ys ih =>
    simp only [List.orderedInsert]
    by_cases h : keyLe key x y
    · rw [if_pos h]
    · rw [if_neg h]
      by_cases hx : key x = q
      · have hy : ¬ (key y = q) := fun hy => h (le_of_eq (hx.trans hy.symm))
        simp [List.filter_cons, hx, hy, ih]
      · by_cases hy : key y = q
        · simp [List.filter_cons, hx, hy, ih]
        · simp [List.filter_cons, hx, hy, ih]

/-- Stability of `insertionSort`, per key value. -/
theorem filter_key_insertionSort {α K : Type*} [LinearOrder K] (key : α → K) (q : K)
    (l : List α) :
    (List.insertionSort (keyLe key) l).filter (fun y => decide (key y = q))
      = l.filter (fun y => decide (key y = q)) := by
  induction l with
  | nil => rfl
  | cons x xs ih =>
    simp only [List.insertionSort, filter_key_orderedInsert, List.filter_cons, ih]

/-- A sorted permutation of a strictly key-sorted list is that list. -/
theorem eq_of_perm_of_sorted_of_strict {α K : Type*} [LinearOrder K] (key : α → K) :
    ∀ {l₂ l₁ : List α}, l₁.Perm l₂ → l₁.Sorted (keyLe key) →
      l₂.Pairwise (fun a b => key a < key b) → l₁ = l₂ := by
  intro l₂
  induction l₂ with
  | nil =>
    intro l₁ hp _ _
    exact hp.eq_nil
  | cons b t ih =>
    intro l₁ hp hs hstrict
    cases l₁ with
    | nil => exact absurd hp.symm.eq_nil (by simp)
    | cons a s =>
      have hab : a = b := by
        by_contra hne
        have hbl : b ∈ a :: s := hp.mem_iff.mpr (List.mem_cons_self b t)
        have hbs : b ∈ s := by
          cases hbl with
          | head => exact absurd rfl hne
          | tail _ h => exact h
        have hal : a ∈ b :: t := hp.mem_iff.mp (List.mem_cons_self a s)
        have hat : a ∈ t := by
          cases hal with
          | head => exact absurd rfl hne
          | tail _ h => exact h
        have h1 : key a ≤ key b := List.rel_of_sorted_cons hs b hbs
        have h2 : key b < key a := (List.pairwise_cons.mp hstrict).1 a hat
        exact absurd h1 (not_le_of_lt h2)
      subst hab
      have hst : s.Perm t := hp.cons_inv
      have := ih hst hs.of_cons (List.pairwise_cons.mp hstrict).2
      rw [this]

/-- Sorting any permutation of a strictly key-sorted list restores that
list. -/
theorem insertionSort_restore {α K : Type*} [LinearOrder K] (key : α → K)
    {es l : List α} (hes : es.Pairwise (fun a b => key a < key b)) (hp : l.Perm es) :
    List.insertionSort (keyLe key) l = es :=
  eq_of_perm_of_sorted_of_strict key ((List.perm_insertionSort _ l).trans hp)
    (List.sorted_insertionSort _ l) hes

/-! ## Support lemmas: the sort engine -/

/-- `sortContainer` decomposed at the wrapper level: the stably sorted
in-category wrappers followed by the out-of-category wrappers in original
order. -/
theorem sortContainer_eq (c : String) (ws : List Wrapper) :
    sortContainer c ws
      = List.insertionSort (keyLe wKey) (ws.filter (wHasCat c))
        ++ ws.filter (fun w => ! wHasCat c w) := by
  simp only [sortContainer]
  rw [List.filter_map, List.filter_map,
    insertionSort_map itemKey wKey pairItem (fun _ => rfl), ← List.map_append,
    List.map_map]
  have h1 : (Prod.fst ∘ pairItem) = (id : Wrapper → Wrapper) := rfl
  rw [h1, List.map_id]
  rfl

/-- `sortContainer` permutes the container's children. -/
theorem sortContainer_perm (c : String) (ws : List Wrapper) :
    (sortContainer c ws).Perm ws := by
  rw [sortContainer_eq]
  exact ((List.perm_insertionSort _ _).append_right _).trans
    (List.filter_append_perm _ ws)

/-- Looking a wrapper up in an order map built from a list it is not in. -/
theorem mapGet_buildOrderFrom_not_mem {w : Wrapper} :
    ∀ (k : ℕ) (ws : List Wrapper), w ∉ ws → mapGet (buildOrderFrom k ws) w = none := by
  intro k ws
  induction ws generalizing k with
  | nil => intro _; rfl
  | cons a t ih =>
    intro h
    have ha : ¬ (a = w) := fun he => h (he ▸ List.mem_cons_self a t)
    simp only [buildOrderFrom, mapGet, List.find?]
    rw [show (decide (a = w)) = false from decide_eq_false ha]
    exact ih (k + 1) (fun hm => h (List.mem_cons_of_mem a hm))

/-- Looking up a member of the list the order map was built from yields an
index at least the starting index. -/
theorem mapGet_buildOrderFrom_mem {w : Wrapper} :
    ∀ (k : ℕ) (ws : List Wrapper), w ∈ ws →
      ∃ j, mapGet (buildOrderFrom k ws) w = some j ∧ k ≤ j := by
  intro k ws
  induction ws generalizing k with
  | nil => intro h; exact absurd h (List.not_mem_nil w)
  | cons a t ih =>
    intro h
    by_cases ha : a = w
    · subst ha
      refine ⟨k, ?_, le_refl k⟩
      simp [buildOrderFrom, mapGet, List.find?]
    · have hm : w ∈ t := by
        cases h with
        | head => exact absurd rfl ha
        | tail _ hm => exact hm
      obtain ⟨j, hj, hkj⟩ := ih (k + 1) hm
      refine ⟨j, ?_, le_trans (Nat.le_succ k) hkj⟩
      simp only [buildOrderFrom, mapGet, List.find?]
      rw [show (decide (a = w)) = false from decide_eq_false ha]
      exact hj

/-- A lookup is unchanged by a leading entry for a different wrapper. -/
theorem mapGet_cons_ne {a w : Wrapper} {k : ℕ} {m : List (Wrapper × ℕ)}
    (h : ¬ (a = w)) : mapGet ((a, k) :: m) w = mapGet m w := by
  simp only [mapGet, List.find?]
  rw [show (decide (a = w)) = false from decide_eq_false h]

/-- On a duplicate-free wrapper list, the captured original-order keys are
strictly increasing along the list. -/
theorem pairwise_ooKey_buildOrderFrom :
    ∀ (k : ℕ) (ws : List Wrapper), ws.Nodup →
      ws.Pairwise (fun a b =>
        ooKey (buildOrderFrom k ws) a < ooKey (buildOrderFrom k ws) b) := by
  intro k ws
  induction ws generalizing k with
  | nil => intro _; exact List.Pairwise.nil
  | cons a t ih =>
    intro hnd
    have hat : a ∉ t := (List.nodup_cons.mp hnd).1
    have htn : t.Nodup := (List.nodup_cons.mp hnd).2
    refine List.pairwise_cons.mpr ⟨?_, ?_⟩
    · intro b hb
      have hab : ¬ (a = b) := fun he => hat (he ▸ hb)
      have hka : ooKey (buildOrderFrom k (a :: t)) a = (k : WithTop ℕ) := by
        simp [buildOrderFrom, ooKey, mapGet, List.find?]
      obtain ⟨j, hj, hkj⟩ := mapGet_buildOrderFrom_mem (k + 1) t hb
      have hkb : ooKey (buildOrderFrom k (a :: t)) b = (j : WithTop ℕ) := by
        simp only [buildOrderFrom, ooKey]
        rw [mapGet_cons_ne hab, hj]
      rw [hka, hkb]
      exact_mod_cast lt_of_lt_of_le (Nat.lt_succ_self k) hkj
    · have base := ih (k + 1) htn
      refine base.imp_of_mem ?_
      intro x y hx hy hxy
      have hax : ¬ (a = x) := fun he => hat (he ▸ hx)
      have hay : ¬ (a = y) := fun he => hat (he ▸ hy)
      simpa only [buildOrderFrom, ooKey, mapGet_cons_ne hax, mapGet_cons_ne hay]
        using hxy

/-- Any run of `sortProducts` calls after the original order was captured
keeps the captured order and the saved flag, and only permutes the
container. -/
theorem applySorts_saved_invariant (cs : List String) :
    ∀ (s : SorterState), s.originalOrderSaved = true →
      (applySorts cs s).originalOrder = s.originalOrder
      ∧ (applySorts cs s).originalOrderSaved = true
      ∧ ((applySorts cs s).container).Perm s.container := by
  induction cs with
  | nil => exact fun s h => ⟨rfl, h, List.Perm.refl _⟩
  | cons c cs ih =>
    intro s h
    have hstep : applySorts (c :: cs) s = applySorts cs (sortProductsState c s) := rfl
    have h' : (sortProductsState c s).originalOrderSaved = true := rfl
    obtain ⟨hoo, hsv, hpm⟩ := ih (sortProductsState c s) h'
    refine ⟨?_, by rw [hstep]; exact hsv, ?_⟩
    · rw [hstep, hoo]
      simp [sortProductsState, h]
    · rw [hstep]
      refine hpm.trans ?_
      simpa [sortProductsState] using sortContainer_perm c s.container

/-! ## Support lemmas: digits, grouping and parsing -/

/-- A digit character is not whitespace. -/
theorem wsC_eq_false_of_isDigit {c : Char} (h : c.isDigit = true) : wsC c = false := by
  by_contra hw
  have hw' : wsC c = true := by revert hw; cases wsC c <;> simp
  have hc : ((c = ' ' ∨ c = '\t') ∨ c = '\x0d') ∨ c = '\n' := by
    simpa [wsC, Char.isWhitespace] using hw'
  rcases hc with ((rfl | rfl) | rfl) | rfl <;> exact absurd h (by decide)

/-- A digit character differs from any non-digit character. -/
theorem ne_of_isDigit {c : Char} (h : c.isDigit = true) (d : Char)
    (hd : d.isDigit = false) : c ≠ d := by
  intro he
  rw [he, hd] at h
  exact Bool.false_ne_true h

/-- `foldl` step of `digitsValN` from an arbitrary accumulator. -/
theorem digitsValN_from (B : List Char) :
    ∀ a : ℕ, B.foldl (fun a c => 10 * a + digVal c) a
      = a * 10 ^ B.length + digitsValN B := by
  induction B with
  | nil => intro a; simp [digitsValN]
  | cons b bs ih =>
    intro a
    simp only [List.foldl_cons, List.length_cons]
    rw [ih, show digitsValN (b :: bs) = bs.foldl (fun a c => 10 * a + digVal c) (10 * 0 + digVal b) from rfl, ih]
    ring

/-- `digitsValN` over an append. -/
theorem digitsValN_append (A B : List Char) :
    digitsValN (A ++ B) = digitsValN A * 10 ^ B.length + digitsValN B := by
  simp only [digitsValN, List.foldl_append]
  exact digitsValN_from B _

/-- `digVal` inverts `Nat.digitChar` on digits. -/
theorem digVal_digitChar {d : ℕ} (h : d < 10) : digVal (Nat.digitChar d) = d := by
  interval_cases d <;> rfl

/-- `Nat.digitChar` of a digit is a digit character. -/
theorem isDigit_digitChar {d : ℕ} (h : d < 10) : (Nat.digitChar d).isDigit = true := by
  interval_cases d <;> rfl

/-- All entries of `toDigitsRevAux` are below 10. -/
theorem mem_toDigitsRevAux_lt :
    ∀ (fuel n d : ℕ), d ∈ toDigitsRevAux fuel n → d < 10 := by
  intro fuel
  induction fuel with
  | zero => intro n d h; simp [toDigitsRevAux] at h
  | succ f ih =>
    intro n d h
    by_cases hn : n = 0
    · simp [toDigitsRevAux, hn] at h
    · simp only [toDigitsRevAux, if_neg hn, List.mem_cons] at h
      cases h with
      | inl h => exact h ▸ Nat.mod_lt n (by norm_num)
      | inr h => exact ih (n / 10) d h

/-- Reading the reversed digit characters of `toDigitsRevAux` recovers the
number. -/
theorem digitsValN_toDigitsRevAux :
    ∀ (fuel n : ℕ), n ≤ fuel →
      digitsValN (((toDigitsRevAux fuel n).map Nat.digitChar).reverse) = n := by
  intro fuel
  induction fuel with
  | zero =>
    intro n h
    interval_cases n
    rfl
  | succ f ih =>
    intro n h
    by_cases hn : n = 0
    · subst hn; rfl
    · have hrec : n / 10 ≤ f := by
        have h1 : n / 10 < n := Nat.div_lt_self (Nat.pos_of_ne_zero hn) (by norm_num)
        omega
      simp only [toDigitsRevAux, if_neg hn, List.map_cons, List.reverse_cons]
      rw [digitsValN_append, ih _ hrec]
      have h2 : digitsValN [Nat.digitChar (n % 10)] = n % 10 := by
        simp [digitsValN, digVal_digitChar (Nat.mod_lt n (by norm_num))]
      rw [h2]
      simp only [List.length_cons, List.length_nil, pow_one]
      omega

/-- Reading `natRepr` back gives the number. -/
theorem digitsValN_natRepr (n : ℕ) : digitsValN (natRepr n) = n := by
  by_cases hn : n = 0
  · subst hn; rfl
  · simp only [natRepr, if_neg hn]
    exact digitsValN_toDigitsRevAux n n le_rfl

/-- Every character of `natRepr` is a digit. -/
theorem natRepr_isDigit {n : ℕ} : ∀ c ∈ natRepr n, c.isDigit = true := by
  intro c hc
  by_cases hn : n = 0
  · simp [natRepr, hn] at hc
    subst hc; rfl
  · simp only [natRepr, if_neg hn, List.mem_reverse, List.mem_map] at hc
    obtain ⟨d, hd, rfl⟩ := hc
    exact isDigit_digitChar (mem_toDigitsRevAux_lt n n d hd)

/-- `natRepr` is never empty. -/
theorem natRepr_ne_nil (n : ℕ) : natRepr n ≠ [] := by
  by_cases hn : n = 0
  · simp [natRepr, hn]
  · obtain ⟨m, rfl⟩ : ∃ m, n = m + 1 := ⟨n - 1, by omega⟩
    simp [natRepr, toDigitsRevAux]

/-- Characters of `group3Rev` come from the list or are the inserted dot. -/
theorem mem_group3Rev : ∀ (l : List Char), ∀ c ∈ group3Rev l, c ∈ l ∨ c = '.' := by
  intro l
  induction l using group3Rev.induct with
  | case1 => intro c hc; simp [group3Rev] at hc
  | case2 a => intro c hc; simp [group3Rev] at hc; simp [hc]
  | case3 a b => intro c hc; simp [group3Rev] at hc; rcases hc with rfl | rfl <;> simp
  | case4 a b c => intro x hx; simp [group3Rev] at hx; rcases hx with rfl | rfl | rfl <;> simp
  | case5 a b c d rest ih =>
    intro x hx
    simp only [group3Rev, List.mem_cons] at hx
    rcases hx with rfl | rfl | rfl | rfl | hx
    · simp
    · simp
    · simp
    · right; rfl
    · rcases ih x hx with hm | rfl
      · left
        simp only [List.mem_cons] at hm ⊢
        tauto
      · right; rfl

/-- Removing the dots of `group3Rev` restores a dot-free list. -/
theorem filter_dot_group3Rev :
    ∀ (l : List Char), (∀ c ∈ l, c ≠ '.') →
      (group3Rev l).filter (fun c => c ≠ '.') = l := by
  intro l
  induction l using group3Rev.induct with
  | case1 => intro _; rfl
  | case2 a => intro h; simp_all [group3Rev]
  | case3 a b => intro h; simp_all [group3Rev]
  | case4 a b c => intro h; simp_all [group3Rev]
  | case5 a b c d rest ih => intro h; simp_all [group3Rev]

/-- Characters of `groupThousands` come from the list or are dots. -/
theorem mem_groupThousands {l : List Char} {c : Char} (hc : c ∈ groupThousands l) :
    c ∈ l ∨ c = '.' := by
  simp only [groupThousands, List.mem_reverse] at hc
  rcases mem_group3Rev l.reverse c hc with hm | rfl
  · exact Or.inl (List.mem_reverse.mp hm)
  · exact Or.inr rfl

/-- Removing the dots of `groupThousands` restores a dot-free list. -/
theorem filter_dot_groupThousands (l : List Char) (h : ∀ c ∈ l, c ≠ '.') :
    (groupThousands l).filter (fun c => c ≠ '.') = l := by
  simp only [groupThousands, List.filter_reverse]
  rw [filter_dot_group3Rev _ (fun c hc => h c (List.mem_reverse.mp hc))]
  exact List.reverse_reverse l

/-- `replaceFirstComma` hits the first comma after a comma-free run. -/
theorem replaceFirstComma_append (l r : List Char) (h : ∀ c ∈ l, c ≠ ',') :
    replaceFirstComma (l ++ ',' :: r) = l ++ '.' :: r := by
  induction l with
  | nil => simp [replaceFirstComma]
  | cons c cs ih =>
    have hc : c ≠ ',' := h c (List.mem_cons_self c cs)
    simp only [List.cons_append, replaceFirstComma, if_neg hc]
    show c :: replaceFirstComma (cs ++ ',' :: r) = c :: (cs ++ '.' :: r)
    rw [ih (fun x hx => h x (List.mem_cons_of_mem c hx))]

/-- `replaceFirstComma` is the identity on comma-free lists. -/
theorem replaceFirstComma_no_comma :
    ∀ (l : List Char), (∀ c ∈ l, c ≠ ',') → replaceFirstComma l = l := by
  intro l
  induction l with
  | nil => intro _; rfl
  | cons c cs ih =>
    intro h
    have hc : c ≠ ',' := h c (List.mem_cons_self c cs)
    simp only [replaceFirstComma, if_neg hc]
    rw [ih (fun x hx => h x (List.mem_cons_of_mem c hx))]

/-- `takeWhile`/`dropWhile` split an all-true run at its first failure. -/
theorem takeWhile_dropWhile_append {p : Char → Bool} :
    ∀ (l : List Char) (x : Char) (r : List Char), (∀ c ∈ l, p c = true) → p x = false →
      (l ++ x :: r).takeWhile p = l ∧ (l ++ x :: r).dropWhile p = x :: r := by
  intro l
  induction l with
  | nil =>
    intro x r _ hx
    constructor
    · simp [List.takeWhile_cons, hx]
    · simp [List.dropWhile_cons, hx]
  | cons c cs ih =>
    intro x r h hx
    have hc : p c = true := h c (List.mem_cons_self c cs)
    obtain ⟨h1, h2⟩ := ih x r (fun y hy => h y (List.mem_cons_of_mem c hy)) hx
    constructor
    · simp [List.takeWhile_cons, hc, h1]
    · simp [List.dropWhile_cons, hc, h2]

-- claim theorems follow

/-- **C5.** For every list of rendered entries and every category `c`,
`sortProducts(c)` produces `s ++ t` where: every entry of `s` has
normalized unit category `c` and every entry of `t` does not (so all
category-`c` entries precede the rest); `s` is a permutation of the
category-`c` entries sorted ascending by `adjustedUnitPrice`, with
equal-price entries in their original relative order (stability, expressed
per key value); and `t` is exactly the out-of-category entries in their
original relative order. -/
theorem sortProducts_stable_partition (c : String) (ws : List Wrapper) :
    ∃ s t : List Wrapper,
      sortContainer c ws = s ++ t
      ∧ (∀ w ∈ s, wHasCat c w = true)
      ∧ (∀ w ∈ t, wHasCat c w = false)
      ∧ s.Perm (ws.filter (wHasCat c))
      ∧ s.Sorted (keyLe wKey)
      ∧ (∀ q : ℚ, s.filter (fun w => decide (wKey w = q))
          = (ws.filter (wHasCat c)).filter (fun w => decide (wKey w = q)))
      ∧ t = ws.filter (fun w => ! wHasCat c w) := by
  refine ⟨List.insertionSort (keyLe wKey) (ws.filter (wHasCat c)),
    ws.filter (fun w => ! wHasCat c w),
    sortContainer_eq c ws, ?_, ?_, List.perm_insertionSort _ _,
    List.sorted_insertionSort _ _, fun q => filter_key_insertionSort wKey q _, rfl⟩
  · intro w hw
    have hmem : w ∈ ws.filter (wHasCat c) := (List.perm_insertionSort _ _).mem_iff.mp hw
    exact (List.mem_filter.mp hmem).2
  · intro w hw
    have := (List.mem_filter.mp hw).2
    simpa using this

/-- **C6.** Starting from freshly rendered, duplicate-free entries, after
any non-empty sequence of `sortProducts` calls (`c` then `cs`),
`resetOrder` restores the container to the exact order captured before the
first sort; and before any sort has been performed `resetOrder` is a
no-op. -/
theorem resetOrder_restores (es : List Wrapper) (hnd : es.Nodup)
    (c : String) (cs : List String) :
    (resetOrderState (applySorts cs (sortProductsState c (initState es)))).container = es
    ∧ resetOrderState (initState es) = initState es := by
  constructor
  · have hs1oo : (sortProductsState c (initState es)).originalOrder
        = buildOrderFrom 0 es := by
      simp [sortProductsState, initState]
    have hs1saved : (sortProductsState c (initState es)).originalOrderSaved = true := rfl
    have hs1cont : (sortProductsState c (initState es)).container.Perm es := by
      simpa [sortProductsState, initState] using sortContainer_perm c es
    obtain ⟨hoo, hsaved, hperm⟩ :=
      applySorts_saved_invariant cs (sortProductsState c (initState es)) hs1saved
    have hreset : (resetOrderState (applySorts cs (sortProductsState c (initState es)))).container
        = List.insertionSort
            (keyLe (ooKey ((applySorts cs (sortProductsState c (initState es))).originalOrder)))
            ((applySorts cs (sortProductsState c (initState es))).container) := by
      simp [resetOrderState, hsaved]
    rw [hreset, hoo, hs1oo]
    exact insertionSort_restore _ (pairwise_ooKey_buildOrderFrom 0 es hnd)
      (hperm.trans hs1cont)
  · simp [resetOrderState, initState]

/-- Witness for **C6** at a concrete page: three distinct wrappers, sorted
by volume then weight, then reset. -/
theorem resetOrder_restores_witness :
    (resetOrderState (applySorts ["weight"]
        (sortProductsState "volume" (initState exWrappers)))).container = exWrappers
    ∧ resetOrderState (initState exWrappers) = initState exWrappers :=
  resetOrder_restores exWrappers (by decide) "volume" ["weight"]


/-! ## Parsing and formatting: evaluation lemmas and claims C4, C10 -/

theorem jsParseFloat_all_digits (l : List Char) (hl : l ≠ [])
    (hd : ∀ c ∈ l, c.isDigit = true) :
    jsParseFloat l = some ((digitsValN l : ℚ)) := by
  obtain ⟨a, l', rfl⟩ := List.exists_cons_of_ne_nil hl
  have ha : a.isDigit = true := hd a (List.mem_cons_self a l')
  have hwa : wsC a = false := wsC_eq_false_of_isDigit ha
  have hdrop : (a :: l').dropWhile wsC = a :: l' := by
    simp [List.dropWhile_cons, hwa]
  have hneg : ¬ ((a :: l').head? = some '-' ∨ (a :: l').head? = some '+') := by
    rintro (h | h) <;> simp only [List.head?_cons, Option.some.injEq] at h
    · exact ne_of_isDigit ha '-' (by decide) h
    · exact ne_of_isDigit ha '+' (by decide) h
  have htake : (a :: l').takeWhile Char.isDigit = a :: l' :=
    List.takeWhile_eq_self_iff.mpr hd
  have hdropD : (a :: l').dropWhile Char.isDigit = [] := by
    rw [List.dropWhile_eq_nil_iff]
    intro x hx
    exact hd x hx
  simp only [jsParseFloat, hdrop, if_neg hneg, htake, hdropD]
  rw [if_neg (List.cons_ne_nil a l')]
  have hB : ((a :: l').head? = some '-') = False := by
    simp only [List.head?_cons, Option.some.injEq, eq_iff_iff, iff_false]
    exact ne_of_isDigit ha '-' (by decide)
  simp [hB]
  intro h
  exact absurd h (ne_of_isDigit ha '-' (by decide))

theorem jsParseFloat_digits_dot_digits (A B : List Char) (hA : A ≠ [])
    (hAd : ∀ c ∈ A, c.isDigit = true) (hBd : ∀ c ∈ B, c.isDigit = true) :
    jsParseFloat (A ++ '.' :: B)
      = some ((digitsValN A : ℚ) + (digitsValN B : ℚ) / (10 : ℚ) ^ B.length) := by
  obtain ⟨a, A', rfl⟩ := List.exists_cons_of_ne_nil hA
  have ha : a.isDigit = true := hAd a (List.mem_cons_self a A')
  have hwa : wsC a = false := wsC_eq_false_of_isDigit ha
  have hdrop : ((a :: A') ++ '.' :: B).dropWhile wsC = (a :: A') ++ '.' :: B := by
    simp [List.dropWhile_cons, hwa]
  have hhead : ((a :: A') ++ '.' :: B).head? = some a := rfl
  have hneg : ¬ (((a :: A') ++ '.' :: B).head? = some '-'
      ∨ ((a :: A') ++ '.' :: B).head? = some '+') := by
    rintro (h | h) <;> rw [hhead] at h <;> simp only [Option.some.injEq] at h
    · exact ne_of_isDigit ha '-' (by decide) h
    · exact ne_of_isDigit ha '+' (by decide) h
  obtain ⟨htake, hdropD⟩ :=
    takeWhile_dropWhile_append (p := Char.isDigit) (a :: A') '.' B hAd (by decide)
  have htakeB : B.takeWhile Char.isDigit = B := List.takeWhile_eq_self_iff.mpr hBd
  simp only [jsParseFloat, hdrop, if_neg hneg, htake, hdropD]
  rw [if_neg (List.cons_ne_nil a A')]
  have hB : (((a :: A') ++ '.' :: B).head? = some '-') = False := by
    rw [hhead]
    simp only [Option.some.injEq, eq_iff_iff, iff_false]
    exact ne_of_isDigit ha '-' (by decide)
  simp [hB, htakeB, fracValQ]
  intro h
  exact absurd h (ne_of_isDigit ha '-' (by decide))


theorem filter_ne_eq_self {x : Char} {l : List Char} (h : ∀ c ∈ l, c ≠ x) :
    l.filter (fun c => c ≠ x) = l := by
  rw [List.filter_eq_self]
  intro a ha
  simpa using h a ha

theorem filter_not_ws_eq_self {l : List Char} (h : ∀ c ∈ l, wsC c = false) :
    l.filter (fun c => ¬ wsC c) = l := by
  rw [List.filter_eq_self]
  intro a ha
  simpa using h a ha

theorem parsePrice_formatPrice_roundtrip (n : ℕ) :
    parsePrice (some (formatPrice (some ((n : ℚ) / 100)))) = some ((n : ℚ) / 100) := by
  have hfloor : (⌊((n : ℚ) / 100) * 100 + 1 / 2⌋ : ℤ) = (n : ℤ) := by
    have h1 : ((n : ℚ) / 100) * 100 = ((n : ℤ) : ℚ) := by push_cast; field_simp
    rw [h1, Int.floor_int_add]
    norm_num
  have hcore : formatPriceCore ((n : ℚ) / 100)
      = '$' :: (groupThousands (natRepr (n / 100))
        ++ ',' :: [Nat.digitChar (n % 100 / 10), Nat.digitChar (n % 10)]) := by
    simp only [formatPriceCore, hfloor]
    rw [if_neg (by omega : ¬ ((n : ℤ) < 0))]
    simp [Int.natAbs_ofNat]
  rw [show parsePrice (some (formatPrice (some ((n : ℚ) / 100))))
      = parsePriceCore (formatPriceCore ((n : ℚ) / 100)) from rfl, hcore]
  have hAdig : ∀ c ∈ natRepr (n / 100), c.isDigit = true := natRepr_isDigit
  have hGclass : ∀ c ∈ groupThousands (natRepr (n / 100)), c.isDigit = true ∨ c = '.' := by
    intro c hc
    rcases mem_groupThousands hc with hm | rfl
    · exact Or.inl (hAdig c hm)
    · exact Or.inr rfl
  have hd1D : (Nat.digitChar (n % 100 / 10)).isDigit = true := isDigit_digitChar (by omega)
  have hd2D : (Nat.digitChar (n % 10)).isDigit = true := isDigit_digitChar (by omega)
  have hmem : ∀ c ∈ groupThousands (natRepr (n / 100))
      ++ ',' :: [Nat.digitChar (n % 100 / 10), Nat.digitChar (n % 10)],
      c.isDigit = true ∨ c = '.' ∨ c = ',' := by
    intro c hc
    simp only [List.mem_append, List.mem_cons, List.not_mem_nil, or_false] at hc
    rcases hc with hcG | rfl | rfl | rfl
    · rcases hGclass c hcG with hd | rfl
      · exact Or.inl hd
      · exact Or.inr (Or.inl rfl)
    · exact Or.inr (Or.inr rfl)
    · exact Or.inl hd1D
    · exact Or.inl hd2D
  have hdollar : ∀ c ∈ groupThousands (natRepr (n / 100))
      ++ ',' :: [Nat.digitChar (n % 100 / 10), Nat.digitChar (n % 10)], c ≠ '$' := by
    intro c hc
    rcases hmem c hc with hd | rfl | rfl
    · exact ne_of_isDigit hd '$' (by decide)
    · decide
    · decide
  have hws : ∀ c ∈ groupThousands (natRepr (n / 100))
      ++ ',' :: [Nat.digitChar (n % 100 / 10), Nat.digitChar (n % 10)], wsC c = false := by
    intro c hc
    rcases hmem c hc with hd | rfl | rfl
    · exact wsC_eq_false_of_isDigit hd
    · decide
    · decide
  simp only [parsePriceCore]
  have f1 : ('$' :: (groupThousands (natRepr (n / 100))
      ++ ',' :: [Nat.digitChar (n % 100 / 10), Nat.digitChar (n % 10)])).filter
        (fun c => c ≠ '$')
      = groupThousands (natRepr (n / 100))
        ++ ',' :: [Nat.digitChar (n % 100 / 10), Nat.digitChar (n % 10)] := by
    rw [show ('$' :: (groupThousands (natRepr (n / 100))
        ++ ',' :: [Nat.digitChar (n % 100 / 10), Nat.digitChar (n % 10)]))
      = [('$' : Char)] ++ (groupThousands (natRepr (n / 100))
        ++ ',' :: [Nat.digitChar (n % 100 / 10), Nat.digitChar (n % 10)]) from rfl,
      List.filter_append, filter_ne_eq_self hdollar]
    simp
  rw [f1, filter_not_ws_eq_self hws, List.filter_append,
    filter_dot_groupThousands _ (fun c hc => ne_of_isDigit (hAdig c hc) '.' (by decide)),
    filter_ne_eq_self (x := '.') (by
      intro c hc
      simp only [List.mem_cons, List.not_mem_nil, or_false] at hc
      rcases hc with rfl | rfl | rfl
      · decide
      · exact ne_of_isDigit hd1D '.' (by decide)
      · exact ne_of_isDigit hd2D '.' (by decide)),
    replaceFirstComma_append _ _ (fun c hc => ne_of_isDigit (hAdig c hc) ',' (by decide)),
    jsParseFloat_digits_dot_digits _ _ (natRepr_ne_nil _) hAdig (by
      intro c hc
      simp only [List.mem_cons, List.not_mem_nil, or_false] at hc
      rcases hc with rfl | rfl
      · exact hd1D
      · exact hd2D)]
  have hA : digitsValN (natRepr (n / 100)) = n / 100 := digitsValN_natRepr _
  have hfr : digitsValN [Nat.digitChar (n % 100 / 10), Nat.digitChar (n % 10)] = n % 100 := by
    simp only [digitsValN, List.foldl_cons, List.foldl_nil,
      digVal_digitChar (show n % 100 / 10 < 10 by omega),
      digVal_digitChar (show n % 10 < 10 by omega)]
    omega
  rw [hA, hfr]
  have hnm : (100 : ℚ) * ((n / 100 : ℕ) : ℚ) + ((n % 100 : ℕ) : ℚ) = (n : ℚ) := by
    exact_mod_cast Nat.div_add_mod n 100
  simp only [List.length_cons, List.length_nil, Option.some.injEq]
  field_simp
  linarith


theorem parsePrice_dot_scaling :
    parsePrice none = none
    ∧ ∀ A B : List Char, A ≠ [] → (∀ c ∈ A, c.isDigit = true) →
        (∀ c ∈ B, c.isDigit = true) → B.length = 2 →
        jsParseFloat (A ++ '.' :: B)
          = some ((digitsValN A : ℚ) + (digitsValN B : ℚ) / 100)
        ∧ parsePriceCore (A ++ '.' :: B)
          = some (100 * ((digitsValN A : ℚ) + (digitsValN B : ℚ) / 100)) := by
  refine ⟨rfl, ?_⟩
  intro A B hA hAd hBd hB2
  have hjs := jsParseFloat_digits_dot_digits A B hA hAd hBd
  rw [hB2] at hjs
  norm_num at hjs
  refine ⟨hjs, ?_⟩
  have hmem : ∀ c ∈ A ++ '.' :: B, c.isDigit = true ∨ c = '.' := by
    intro c hc
    simp only [List.mem_append, List.mem_cons] at hc
    rcases hc with hcA | rfl | hcB
    · exact Or.inl (hAd c hcA)
    · exact Or.inr rfl
    · exact Or.inl (hBd c hcB)
  have hdollar : ∀ c ∈ A ++ '.' :: B, c ≠ '$' := by
    intro c hc
    rcases hmem c hc with hd | rfl
    · exact ne_of_isDigit hd '$' (by decide)
    · decide
  have hws : ∀ c ∈ A ++ '.' :: B, wsC c = false := by
    intro c hc
    rcases hmem c hc with hd | rfl
    · exact wsC_eq_false_of_isDigit hd
    · decide
  have hdot : ('.' :: B).filter (fun c => c ≠ '.') = B := by
    rw [show ('.' :: B) = ['.'] ++ B from rfl, List.filter_append,
      filter_ne_eq_self (fun c hc => ne_of_isDigit (hBd c hc) '.' (by decide))]
    simp
  simp only [parsePriceCore]
  rw [filter_ne_eq_self hdollar, filter_not_ws_eq_self hws, List.filter_append,
    filter_ne_eq_self (fun c hc => ne_of_isDigit (hAd c hc) '.' (by decide)), hdot,
    replaceFirstComma_no_comma _ (by
      intro c hc
      simp only [List.mem_append] at hc
      rcases hc with hcA | hcB
      · exact ne_of_isDigit (hAd c hcA) ',' (by decide)
      · exact ne_of_isDigit (hBd c hcB) ',' (by decide)),
    jsParseFloat_all_digits (A ++ B) (by simp [hA]) (by
      intro c hc
      simp only [List.mem_append] at hc
      rcases hc with hcA | hcB
      · exact hAd c hcA
      · exact hBd c hcB)]
  rw [digitsValN_append, hB2]
  push_cast
  ring_nf


theorem parsePrice_dot_scaling_witness :
    parsePrice (some "3.95") = some 395 ∧ parsePrice none = none := by
  obtain ⟨h0, hgen⟩ := parsePrice_dot_scaling
  obtain ⟨hjs, hcore⟩ := hgen ['3'] ['9', '5'] (by decide) (by decide) (by decide) rfl
  refine ⟨?_, h0⟩
  have heq : parsePrice (some "3.95") = parsePriceCore (['3'] ++ '.' :: ['9', '5']) := rfl
  rw [heq, hcore]
  have h3 : digitsValN ['3'] = 3 := by decide
  have h95 : digitsValN ['9', '5'] = 95 := by decide
  rw [h3, h95]
  norm_num


/-! ## Support lemmas: discount ratios -/

theorem jsPos_some_iff {v : ℚ} : jsPos (some v) = true ↔ 0 < v := by
  simp [jsPos]

theorem bestStep_pos {acc : Option ℚ} (h : ∀ x, acc = some x → 0 < x) (dto : Dto) :
    ∀ x, bestStep acc dto = some x → 0 < x := by
  intro x hx
  unfold bestStep at hx
  split at hx
  · exact h x hx
  · split at hx
    · split at hx
      · rename_i hpd
        cases hx
        exact hpd
      · cases hx
    · split at hx
      · rename_i hc
        cases hx
        exact hc.1
      · cases hx
        exact h _ rfl

theorem bestEffectivePrice_pos (dtoArr : List Dto) :
    ∀ b, bestEffectivePrice dtoArr = some b → 0 < b := by
  unfold bestEffectivePrice
  suffices h : ∀ (acc : Option ℚ), (∀ x, acc = some x → 0 < x) →
      ∀ b, dtoArr.foldl bestStep acc = some b → 0 < b from
    h none (by intro x hx; cases hx)
  induction dtoArr with
  | nil => intro acc hacc b hb; exact hacc b hb
  | cons dto rest ih =>
    intro acc hacc b hb
    exact ih (bestStep acc dto) (bestStep_pos hacc dto) b hb

theorem dtoStageRatio_cases (dtoArr : List Dto) (ap : Option ℚ) :
    dtoStageRatio dtoArr ap = 1
    ∨ ∃ best apv, bestEffectivePrice dtoArr = some best ∧ ap = some apv
        ∧ 0 < best ∧ 0 < apv ∧ best < apv
        ∧ dtoStageRatio dtoArr ap = best / apv := by
  by_cases hcond : dtoArr ≠ [] ∧ jsPos ap = true
  · cases hbe : bestEffectivePrice dtoArr with
    | none =>
      left
      unfold dtoStageRatio
      rw [if_pos hcond, hbe]
    | some best =>
      rcases ap with - | apv
      · left
        unfold dtoStageRatio
        rw [if_pos hcond, hbe]
      · by_cases hlt : best < apv
        · right
          have hb := bestEffectivePrice_pos dtoArr best hbe
          have hapv : 0 < apv := jsPos_some_iff.mp hcond.2
          refine ⟨best, apv, rfl, rfl, hb, hapv, hlt, ?_⟩
          unfold dtoStageRatio
          rw [if_pos hcond, hbe]
          show (if best < apv then best / apv else 1) = best / apv
          rw [if_pos hlt]
        · left
          unfold dtoStageRatio
          rw [if_pos hcond, hbe]
          show (if best < apv then best / apv else 1) = 1
          rw [if_neg hlt]
  · left
    unfold dtoStageRatio
    rw [if_neg hcond]

theorem listStageRatio_cases (ap : Option ℚ) (get : String → Option String) :
    listStageRatio ap get = 1
    ∨ ∃ lp apv, jsParseFloat (jsOrDefault (get "sku.listPrice") "0").data = some lp
        ∧ ap = some apv ∧ 0 < lp ∧ 0 < apv ∧ apv < lp
        ∧ listStageRatio ap get = apv / lp := by
  cases hlp : jsParseFloat (jsOrDefault (get "sku.listPrice") "0").data with
  | none =>
    left
    unfold listStageRatio
    rw [hlp]
  | some lp =>
    rcases ap with - | apv
    · left
      unfold listStageRatio
      rw [hlp]
    · by_cases hc : 0 < lp ∧ 0 < apv ∧ apv < lp
      · right
        refine ⟨lp, apv, rfl, rfl, hc.1, hc.2.1, hc.2.2, ?_⟩
        unfold listStageRatio
        rw [hlp]
        show (if 0 < lp ∧ 0 < apv ∧ apv < lp then apv / lp else 1) = apv / lp
        rw [if_pos hc]
      · left
        unfold listStageRatio
        rw [hlp]
        show (if 0 < lp ∧ 0 < apv ∧ apv < lp then apv / lp else 1) = 1
        rw [if_neg hc]

theorem calcDiscountRatio_bounds (dtoArr : List Dto) (ap : Option ℚ)
    (get : String → Option String) :
    0 < calcDiscountRatio dtoArr ap get ∧ calcDiscountRatio dtoArr ap get ≤ 1 := by
  unfold calcDiscountRatio
  by_cases h1 : dtoStageRatio dtoArr ap = 1
  · rw [if_pos h1]
    rcases listStageRatio_cases ap get with h | ⟨lp, apv, _, _, hlp, hapv, hlt, heq⟩
    · rw [h]; exact ⟨one_pos, le_refl 1⟩
    · rw [heq]
      exact ⟨div_pos hapv hlp, le_of_lt ((div_lt_one hlp).mpr hlt)⟩
  · rw [if_neg h1]
    rcases dtoStageRatio_cases dtoArr ap with h | ⟨best, apv, _, _, hb, hapv, hlt, heq⟩
    · exact absurd h h1
    · rw [heq]
      exact ⟨div_pos hb hapv, le_of_lt ((div_lt_one hapv).mpr hlt)⟩

theorem calcDiscountRatio_dto_fires (dtoArr : List Dto) (get : String → Option String)
    {ap best : ℚ} (hap : 0 < ap) (hbest : bestEffectivePrice dtoArr = some best)
    (hlt : best < ap) :
    calcDiscountRatio dtoArr (some ap) get = best / ap
    ∧ calcDiscountRatio dtoArr (some ap) get < 1 := by
  have hne : dtoArr ≠ [] := by
    intro h
    rw [h] at hbest
    cases hbest
  have hstage : dtoStageRatio dtoArr (some ap) = best / ap := by
    unfold dtoStageRatio
    rw [if_pos ⟨hne, jsPos_some_iff.mpr hap⟩, hbest]
    show (if best < ap then best / ap else 1) = best / ap
    rw [if_pos hlt]
  have hlt1 : best / ap < 1 := (div_lt_one hap).mpr hlt
  have hne1 : dtoStageRatio dtoArr (some ap) ≠ 1 := by
    rw [hstage]
    exact ne_of_lt hlt1
  have hcalc : calcDiscountRatio dtoArr (some ap) get = dtoStageRatio dtoArr (some ap) := by
    unfold calcDiscountRatio
    rw [if_neg hne1]
  rw [hcalc, hstage]
  exact ⟨rfl, hlt1⟩

theorem calcDiscountRatio_dto_silent (dtoArr : List Dto) (get : String → Option String)
    {ap : ℚ}
    (hnot : ∀ best, bestEffectivePrice dtoArr = some best → ¬ best < ap) :
    calcDiscountRatio dtoArr (some ap) get = listStageRatio (some ap) get := by
  have hstage1 : dtoStageRatio dtoArr (some ap) = 1 := by
    rcases dtoStageRatio_cases dtoArr (some ap) with h | ⟨best, apv, hbe, hapv, _, _, hlt, _⟩
    · exact h
    · have hv : apv = ap := Option.some.inj hapv.symm
      subst hv
      exact absurd hlt (hnot best hbe)
  unfold calcDiscountRatio
  rw [if_pos hstage1]

theorem listStageRatio_fires (get : String → Option String) {ap lp : ℚ}
    (hlp : jsParseFloat (jsOrDefault (get "sku.listPrice") "0").data = some lp)
    (h0 : 0 < lp) (hap : 0 < ap) (hlt : ap < lp) :
    listStageRatio (some ap) get = ap / lp := by
  unfold listStageRatio
  rw [hlp]
  show (if 0 < lp ∧ 0 < ap ∧ ap < lp then ap / lp else 1) = ap / lp
  rw [if_pos ⟨h0, hap, hlt⟩]

theorem listStageRatio_silent (get : String → Option String) {ap : ℚ}
    (hnone : ¬ ∃ lp, jsParseFloat (jsOrDefault (get "sku.listPrice") "0").data = some lp
        ∧ 0 < lp ∧ ap < lp) :
    listStageRatio (some ap) get = 1 := by
  cases hlp : jsParseFloat (jsOrDefault (get "sku.listPrice") "0").data with
  | none =>
    unfold listStageRatio
    rw [hlp]
  | some lp =>
    unfold listStageRatio
    rw [hlp]
    show (if 0 < lp ∧ 0 < ap ∧ ap < lp then ap / lp else 1) = 1
    rw [if_neg]
    intro hc
    exact hnone ⟨lp, hlp, hc.1, hc.2.2⟩

theorem calcDiscountRatio_precedence (dtoArr : List Dto) (get : String → Option String)
    (ap : ℚ) (hap : 0 < ap) :
    (∀ best, bestEffectivePrice dtoArr = some best → best < ap →
        calcDiscountRatio dtoArr (some ap) get = best / ap
        ∧ calcDiscountRatio dtoArr (some ap) get < 1)
    ∧ ((∀ best, bestEffectivePrice dtoArr = some best → ¬ best < ap) →
        (∀ lp, jsParseFloat (jsOrDefault (get "sku.listPrice") "0").data = some lp →
            0 < lp → ap < lp →
            calcDiscountRatio dtoArr (some ap) get = ap / lp)
        ∧ (¬ (∃ lp, jsParseFloat (jsOrDefault (get "sku.listPrice") "0").data = some lp
              ∧ 0 < lp ∧ ap < lp) →
            calcDiscountRatio dtoArr (some ap) get = 1)) := by
  constructor
  · intro best hbest hlt
    exact calcDiscountRatio_dto_fires dtoArr get hap hbest hlt
  · intro hnot
    rw [calcDiscountRatio_dto_silent dtoArr get hnot]
    constructor
    · intro lp hlp h0 hlt
      exact listStageRatio_fires get hlp h0 hap hlt
    · intro hnone
      exact listStageRatio_silent get hnone

theorem calcDiscountRatio_precedence_witness :
    (0 : ℚ) < 300
    ∧ calcDiscountRatio
        [{ precioDescuento := some "$200.00c/u", textoLlevando := none, textoDescuento := none }]
        (some 300) (fun _ => none) = 200 / 300 := by
  have hbest : bestEffectivePrice
      [{ precioDescuento := some "$200.00c/u", textoLlevando := none, textoDescuento := none }]
      = some 200 := by
    simp +decide [bestEffectivePrice, bestStep, jsMatchNumber, digitsValN, digVal, fracValQ]
  have h := (calcDiscountRatio_precedence
      [{ precioDescuento := some "$200.00c/u", textoLlevando := none, textoDescuento := none }]
      (fun _ => none) 300 (by norm_num)).1 200 hbest (by norm_num)
  exact ⟨by norm_num, h.1⟩

theorem parseEndecaRecord_threeForTwo (rec : InnerRecord) (ap : ℚ) (hap : 0 < ap)
    (hactive : jsParseFloat (jsOrDefault (attrGet rec.attributes "sku.activePrice") "0").data
      = some ap)
    (hbest : bestEffectivePrice rec.dtoDescuentos = some (2 / 3 * ap)) :
    (parseEndecaRecord rec).discountRatio = 2 / 3 := by
  have hratio : (parseEndecaRecord rec).discountRatio
      = calcDiscountRatio rec.dtoDescuentos
          (jsParseFloat (jsOrDefault (attrGet rec.attributes "sku.activePrice") "0").data)
          (attrGet rec.attributes) := rfl
  rw [hratio, hactive]
  have hlt : 2 / 3 * ap < ap := by nlinarith
  have h := calcDiscountRatio_dto_fires rec.dtoDescuentos (attrGet rec.attributes) hap hbest hlt
  rw [h.1, mul_div_assoc, div_self (ne_of_gt hap), mul_one]

theorem parseEndecaRecord_threeForTwo_witness :
    (parseEndecaRecord exC8Rec).discountRatio = 2 / 3 := by
  apply parseEndecaRecord_threeForTwo exC8Rec 300 (by norm_num)
  · show jsParseFloat (jsOrDefault (attrGet exC8Rec.attributes "sku.activePrice") "0").data
      = some 300
    simp +decide [exC8Rec, attrGet, jsOrDefault, jsParseFloat, digitsValN, digVal, fracValQ]
  · show bestEffectivePrice exC8Rec.dtoDescuentos = some (2 / 3 * 300)
    simp +decide [exC8Rec, bestEffectivePrice, bestStep, jsMatchNumber, digitsValN, digVal,
      fracValQ]
    norm_num


theorem extractProductData_spec (el : ProductEl) (d : ProductData)
    (h : extractProductData el = some d) :
    0 < d.listedUnitPrice
    ∧ d.adjustedUnitPrice = d.listedUnitPrice * d.discountRatio
    ∧ d.discountRatio = renderedRatioOf d.displayedPrice d.regularPrice := by
  unfold extractProductData at h
  cases hfind : findUnitPriceInSmalls el.smalls with
  | none =>
    rw [hfind] at h
    simp at h
  | some tri =>
    obtain ⟨rawU, rawP, text⟩ := tri
    rw [hfind] at h
    simp only [] at h
    cases hnorm : normalizeUnitType rawU ((findQtyMatch text).getD ['1']) with
    | none =>
      rw [hnorm] at h
      simp at h
    | some type =>
      rw [hnorm] at h
      simp only [] at h
      cases hpp : parsePriceCore rawP with
      | none =>
        rw [hpp] at h
        simp at h
      | some listed =>
        rw [hpp] at h
        simp only [] at h
        by_cases hle : listed ≤ 0
        · rw [if_pos hle] at h
          simp at h
        · rw [if_neg hle] at h
          have hd := Option.some.inj h
          subst hd
          exact ⟨lt_of_not_le hle, rfl, rfl⟩


theorem renderedRatioOf_pos (dp rp : Option ℚ) : 0 < renderedRatioOf dp rp := by
  unfold renderedRatioOf
  split
  · split
    · rename_i hc
      exact div_pos hc.1 hc.2
    · exact one_pos
  · exact one_pos

theorem renderedRatioOf_gt_one {dp rp : Option ℚ} (h : 1 < renderedRatioOf dp rp) :
    ∃ dv rv, dp = some dv ∧ rp = some rv ∧ 0 < rv ∧ rv < dv
      ∧ renderedRatioOf dp rp = dv / rv := by
  rcases dp with - | dv
  · rw [show renderedRatioOf none rp = 1 from rfl] at h
    exact absurd h (by norm_num)
  · rcases rp with - | rv
    · rw [show renderedRatioOf (some dv) none = 1 from rfl] at h
      exact absurd h (by norm_num)
    · by_cases hc : 0 < dv ∧ 0 < rv
      · have heq : renderedRatioOf (some dv) (some rv) = dv / rv := by
          unfold renderedRatioOf
          simp [hc]
        rw [heq] at h
        exact ⟨dv, rv, rfl, rfl, hc.2, (one_lt_div hc.2).mp h, heq⟩
      · have heq : renderedRatioOf (some dv) (some rv) = 1 := by
          unfold renderedRatioOf
          simp [hc]
        rw [heq] at h
        exact absurd h (by norm_num)

theorem numOrZero_nonneg (v : Option ℚ) : 0 ≤ numOrZero v := by
  unfold numOrZero
  split
  · split
    · rename_i h; exact le_of_lt h
    · exact le_refl 0
  · exact le_refl 0

theorem fromWithoutTax_nonneg (v : Option ℚ) : 0 ≤ fromWithoutTax v := by
  unfold fromWithoutTax
  simp only []
  split
  · exact le_refl 0
  · have := numOrZero_nonneg v
    positivity

theorem le_foldl_max {b a : ℚ} (l : List ℚ) (h : b ≤ a) : b ≤ l.foldl max a := by
  induction l generalizing a with
  | nil => exact h
  | cons x xs ih =>
    exact ih (le_trans h (le_max_left a x))

theorem foldl_min_pos {a : ℚ} (l : List ℚ) (ha : 0 < a) (hl : ∀ y ∈ l, 0 < y) :
    0 < l.foldl min a := by
  induction l generalizing a with
  | nil => exact ha
  | cons x xs ih =>
    exact ih (lt_min ha (hl x (List.mem_cons_self x xs)))
      (fun y hy => hl y (List.mem_cons_of_mem x hy))

theorem maxPriceOf_nonneg (l : List ℚ) (h : ∀ x ∈ l, 0 < x) : 0 ≤ maxPriceOf l := by
  unfold maxPriceOf
  split
  · exact le_refl 0
  · rename_i x xs
    exact le_foldl_max xs (le_of_lt (h x (List.mem_cons_self x xs)))

theorem minPriceOf_nonneg (l : List ℚ) (h : ∀ x ∈ l, 0 < x) : 0 ≤ minPriceOf l := by
  unfold minPriceOf
  split
  · exact le_refl 0
  · rename_i x xs
    exact le_of_lt (foldl_min_pos xs (h x (List.mem_cons_self x xs))
      (fun y hy => h y (List.mem_cons_of_mem x hy)))

theorem maxPriceOf_eq_zero (l : List ℚ) (h : ∀ x ∈ l, 0 < x)
    (hz : maxPriceOf l = 0) : l = [] := by
  cases l with
  | nil => rfl
  | cons x xs =>
    exfalso
    have hx : 0 < x := h x (List.mem_cons_self x xs)
    have : x ≤ maxPriceOf (x :: xs) := le_foldl_max xs (le_refl x)
    rw [hz] at this
    exact absurd (lt_of_lt_of_le hx this) (lt_irrefl 0)

theorem orNZ_nonneg {a b : ℚ} (ha : 0 ≤ a) (hb : 0 ≤ b) : 0 ≤ orNZ a b := by
  unfold orNZ
  split
  · exact ha
  · exact hb

theorem bffDiscountRatioOf_bounds (m a : ℚ) :
    0 < bffDiscountRatioOf m a ∧ bffDiscountRatioOf m a ≤ 1 := by
  unfold bffDiscountRatioOf
  split
  · rename_i hc
    exact ⟨div_pos hc.1 hc.2.1, le_of_lt ((div_lt_one hc.2.1).mpr hc.2.2)⟩
  · exact ⟨one_pos, le_refl 1⟩


theorem parseBffRecord_activePrice_def (res : BffResult) :
    (parseBffRecord res).activePrice
      = some (orNZ (numOrZero (res.data.getD BffData.empty).product_list_price)
          (orNZ (maxPriceOf ((((res.data.getD BffData.empty).price.getD []).map
              (fun p => fromWithoutTax p.priceWithoutTax)).filter (fun n => 0 < n)))
            (orNZ (minPriceOf ((((res.data.getD BffData.empty).price.getD []).map
              (fun p => fromWithoutTax p.priceWithoutTax)).filter (fun n => 0 < n))) 0))) := rfl

theorem parseBffRecord_referencePrice_def (res : BffResult) :
    (parseBffRecord res).referencePrice = (parseBffRecord res).activePrice := rfl

theorem parseBffRecord_ratio_def (res : BffResult) :
    (parseBffRecord res).discountRatio
      = bffDiscountRatioOf
          (minPriceOf ((((res.data.getD BffData.empty).price.getD []).map
              (fun p => fromWithoutTax p.priceWithoutTax)).filter (fun n => 0 < n)))
          (orNZ (numOrZero (res.data.getD BffData.empty).product_list_price)
            (orNZ (maxPriceOf ((((res.data.getD BffData.empty).price.getD []).map
                (fun p => fromWithoutTax p.priceWithoutTax)).filter (fun n => 0 < n)))
              (orNZ (minPriceOf ((((res.data.getD BffData.empty).price.getD []).map
                (fun p => fromWithoutTax p.priceWithoutTax)).filter (fun n => 0 < n))) 0))) := rfl

theorem parseBffRecord_adjusted_def (res : BffResult) :
    ∀ av : ℚ, (parseBffRecord res).activePrice = some av →
      (parseBffRecord res).adjustedReferencePrice
        = some (if (parseBffRecord res).discountRatio < 999 / 1000
            then av * (parseBffRecord res).discountRatio else av) := by
  intro av hav
  have h0 : (parseBffRecord res).adjustedReferencePrice
      = some (if decide ((parseBffRecord res).discountRatio < 999 / 1000) = true
          then (orNZ (numOrZero (res.data.getD BffData.empty).product_list_price)
            (orNZ (maxPriceOf ((((res.data.getD BffData.empty).price.getD []).map
                (fun p => fromWithoutTax p.priceWithoutTax)).filter (fun n => 0 < n)))
              (orNZ (minPriceOf ((((res.data.getD BffData.empty).price.getD []).map
                (fun p => fromWithoutTax p.priceWithoutTax)).filter (fun n => 0 < n))) 0)))
            * (parseBffRecord res).discountRatio
          else (orNZ (numOrZero (res.data.getD BffData.empty).product_list_price)
            (orNZ (maxPriceOf ((((res.data.getD BffData.empty).price.getD []).map
                (fun p => fromWithoutTax p.priceWithoutTax)).filter (fun n => 0 < n)))
              (orNZ (minPriceOf ((((res.data.getD BffData.empty).price.getD []).map
                (fun p => fromWithoutTax p.priceWithoutTax)).filter (fun n => 0 < n))) 0)))) := rfl
  rw [parseBffRecord_activePrice_def res] at hav
  have hv := Option.some.inj hav
  rw [h0, ← hv]
  by_cases hlt : (parseBffRecord res).discountRatio < 999 / 1000
  · simp [hlt]
  · simp [hlt]

theorem mem_filter_pos {l : List ℚ} : ∀ x ∈ l.filter (fun n => 0 < n), 0 < x := by
  intro x hx
  simpa using (List.mem_filter.mp hx).2

theorem orNZ_max_min (C : List ℚ) (h : ∀ x ∈ C, 0 < x) :
    orNZ (maxPriceOf C) (orNZ (minPriceOf C) 0) = maxPriceOf C := by
  by_cases hz : maxPriceOf C = 0
  · have hC : C = [] := maxPriceOf_eq_zero C h hz
    subst hC
    simp [orNZ, maxPriceOf, minPriceOf]
  · unfold orNZ
    rw [if_pos hz]


theorem parseEndecaRecord_ratio_def (rec : InnerRecord) :
    (parseEndecaRecord rec).discountRatio
      = calcDiscountRatio rec.dtoDescuentos
          (jsParseFloat (jsOrDefault (attrGet rec.attributes "sku.activePrice") "0").data)
          (attrGet rec.attributes) := rfl

theorem parseEndecaRecord_reference_def (rec : InnerRecord) :
    (parseEndecaRecord rec).referencePrice
      = jsParseFloat (jsOrDefault (attrGet rec.attributes "sku.referencePrice") "0").data := rfl

theorem parseEndecaRecord_adjusted_def (rec : InnerRecord) :
    (parseEndecaRecord rec).adjustedReferencePrice
      = adjustedReferencePriceOf (parseEndecaRecord rec).referencePrice
          (parseEndecaRecord rec).discountRatio := rfl

theorem adjustedReferencePriceOf_eq_mul {ref ratio : ℚ} (h0 : 0 < ref)
    (hlt : ratio < 999 / 1000) :
    adjustedReferencePriceOf (some ref) ratio = some (ref * ratio) := by
  unfold adjustedReferencePriceOf
  rw [if_pos ⟨jsPos_some_iff.mpr h0, hlt⟩]
  rfl

theorem adjustedReferencePriceOf_eq_ref (ref : Option ℚ) (ratio : ℚ)
    (h : ¬ ratio < 999 / 1000) :
    adjustedReferencePriceOf ref ratio = ref := by
  unfold adjustedReferencePriceOf
  rw [if_neg (fun hc => h hc.2)]

theorem adjustedReferencePriceOf_le {ref ratio : ℚ} (h0 : 0 < ref)
    (hr1 : ratio ≤ 1) :
    ∃ a, adjustedReferencePriceOf (some ref) ratio = some a ∧ a ≤ ref := by
  by_cases hlt : ratio < 999 / 1000
  · exact ⟨ref * ratio, adjustedReferencePriceOf_eq_mul h0 hlt,
      mul_le_of_le_one_right (le_of_lt h0) hr1⟩
  · exact ⟨ref, adjustedReferencePriceOf_eq_ref _ _ hlt, le_refl ref⟩


/-- **C1 (amended).** Discount-ratio bounds per normalizer: both API
normalizers always produce `0 < discountRatio ≤ 1` and an adjusted
reference price at most the reference price (whenever the latter is a
positive number).  The rendered-entry normalizer always produces
`0 < discountRatio` and a positive listed unit price, and its adjusted
price respects the bound exactly when its ratio is at most 1; the ratio
exceeds 1 precisely when the entry's displayed price exceeds its positive
regular price. -/
theorem discountRatio_bounds_all :
    (∀ rec : InnerRecord,
        0 < (parseEndecaRecord rec).discountRatio
        ∧ (parseEndecaRecord rec).discountRatio ≤ 1
        ∧ (∀ ref, (parseEndecaRecord rec).referencePrice = some ref → 0 < ref →
            ∃ a, (parseEndecaRecord rec).adjustedReferencePrice = some a ∧ a ≤ ref))
    ∧ (∀ res : BffResult,
        0 < (parseBffRecord res).discountRatio
        ∧ (parseBffRecord res).discountRatio ≤ 1
        ∧ (∀ ref, (parseBffRecord res).referencePrice = some ref →
            ∃ a, (parseBffRecord res).adjustedReferencePrice = some a ∧ a ≤ ref))
    ∧ (∀ el d, extractProductData el = some d →
        0 < d.discountRatio
        ∧ 0 < d.listedUnitPrice
        ∧ (d.discountRatio ≤ 1 → d.adjustedUnitPrice ≤ d.listedUnitPrice)
        ∧ (1 < d.discountRatio →
            ∃ dv rv, d.displayedPrice = some dv ∧ d.regularPrice = some rv
              ∧ 0 < rv ∧ rv < dv ∧ d.discountRatio = dv / rv)) := by
  refine ⟨?_, ?_, ?_⟩
  · intro rec
    rw [parseEndecaRecord_ratio_def, parseEndecaRecord_adjusted_def]
    obtain ⟨h0, h1⟩ := calcDiscountRatio_bounds rec.dtoDescuentos
      (jsParseFloat (jsOrDefault (attrGet rec.attributes "sku.activePrice") "0").data)
      (attrGet rec.attributes)
    refine ⟨h0, h1, ?_⟩
    intro ref href hpos
    rw [href, parseEndecaRecord_ratio_def]
    exact adjustedReferencePriceOf_le hpos h1
  · intro res
    rw [parseBffRecord_ratio_def]
    obtain ⟨h0, h1⟩ := bffDiscountRatioOf_bounds
      (minPriceOf ((((res.data.getD BffData.empty).price.getD []).map
          (fun p => fromWithoutTax p.priceWithoutTax)).filter (fun n => 0 < n)))
      (orNZ (numOrZero (res.data.getD BffData.empty).product_list_price)
        (orNZ (maxPriceOf ((((res.data.getD BffData.empty).price.getD []).map
            (fun p => fromWithoutTax p.priceWithoutTax)).filter (fun n => 0 < n)))
          (orNZ (minPriceOf ((((res.data.getD BffData.empty).price.getD []).map
            (fun p => fromWithoutTax p.priceWithoutTax)).filter (fun n => 0 < n))) 0)))
    refine ⟨h0, h1, ?_⟩
    intro ref href
    have hav : (parseBffRecord res).activePrice = some ref := by
      rw [← parseBffRecord_referencePrice_def]
      exact href
    have hadj := parseBffRecord_adjusted_def res ref hav
    have hrefnn : 0 ≤ ref := by
      have := parseBffRecord_activePrice_def res
      rw [this] at hav
      have hv := Option.some.inj hav
      rw [← hv]
      refine orNZ_nonneg (numOrZero_nonneg _) (orNZ_nonneg ?_ (orNZ_nonneg ?_ (le_refl 0)))
      · exact maxPriceOf_nonneg _ mem_filter_pos
      · exact minPriceOf_nonneg _ mem_filter_pos
    rw [hadj]
    by_cases hlt : (parseBffRecord res).discountRatio < 999 / 1000
    · refine ⟨ref * (parseBffRecord res).discountRatio, by rw [if_pos hlt], ?_⟩
      have hb := parseBffRecord_ratio_def res
      refine mul_le_of_le_one_right hrefnn ?_
      rw [hb]
      exact (bffDiscountRatioOf_bounds _ _).2
    · exact ⟨ref, by rw [if_neg hlt], le_refl ref⟩
  · intro el d h
    obtain ⟨hlisted, hadj, hratio⟩ := extractProductData_spec el d h
    refine ⟨hratio ▸ renderedRatioOf_pos _ _, hlisted, ?_, ?_⟩
    · intro h1
      rw [hadj]
      exact mul_le_of_le_one_right (le_of_lt hlisted) h1
    · intro h1
      rw [hratio] at h1 ⊢
      exact renderedRatioOf_gt_one h1

/-- **C1 (counterexample).** A rendered entry whose displayed price
($200,00) exceeds the `data-cnstrc-item-price` regular price (100) yields
`discountRatio = 2 > 1` and an adjusted unit price above the listed unit
price. -/
theorem extractProductData_ratio_above_one :
    ∃ d, extractProductData exRenderedEl = some d
      ∧ d.listedUnitPrice = 100 ∧ d.discountRatio = 2 ∧ d.adjustedUnitPrice = 200
      ∧ 1 < d.discountRatio ∧ d.listedUnitPrice < d.adjustedUnitPrice := by
  have h1 : findUnitPriceInSmalls ["Precio por 1 Litro: $100,00"] =
      some ("Litro".data, "100,00".data, "Precio por 1 Litro: $100,00".data) := by decide
  have h2 : parsePriceCore "100,00".data = some 100 := by
    simp +decide [parsePriceCore, jsParseFloat, replaceFirstComma, fracValQ, digitsValN, digVal]
  have hx : extractProductData exRenderedEl
      = some { unitType := "volume", unitRawLabel := "Litro", listedUnitPrice := 100,
               adjustedUnitPrice := 200, displayedPrice := some 200, regularPrice := some 100,
               discountRatio := 2, name := "(unknown)" } := by
    simp +decide [extractProductData, exRenderedEl, h1, h2, findRegularInSmalls,
      normalizeUnitType, parsePriceCore, jsParseFloat, replaceFirstComma, fracValQ,
      digitsValN, digVal, renderedRatioOf, trimS, trimChars, jsNanOrNonpos,
      startsWithCI, ciPrefixRest, lowerChar, wsC]
    norm_num
  exact ⟨_, hx, rfl, rfl, rfl, by norm_num, by norm_num⟩


/-- **C2 (amended).** Adjusted-price rule per normalizer.  Dialect A
multiplies the reference price by the ratio only when the reference price
is positive and the ratio is below the 0.999 threshold, and otherwise
leaves the reference price unchanged.  Dialect B multiplies the active
price by the ratio exactly when the ratio is below 0.999 and otherwise
keeps the active price.  The rendered-entry normalizer always sets
`adjustedUnitPrice = listedUnitPrice * discountRatio`. -/
theorem adjustedPrice_rule_all :
    (∀ rec : InnerRecord,
        (∀ ref, (parseEndecaRecord rec).referencePrice = some ref →
          0 < ref → (parseEndecaRecord rec).discountRatio < 999 / 1000 →
            (parseEndecaRecord rec).adjustedReferencePrice
              = some (ref * (parseEndecaRecord rec).discountRatio))
        ∧ (¬ (parseEndecaRecord rec).discountRatio < 999 / 1000 →
            (parseEndecaRecord rec).adjustedReferencePrice
              = (parseEndecaRecord rec).referencePrice))
    ∧ (∀ (res : BffResult) (av : ℚ), (parseBffRecord res).activePrice = some av →
        (parseBffRecord res).adjustedReferencePrice
          = some (if (parseBffRecord res).discountRatio < 999 / 1000
              then av * (parseBffRecord res).discountRatio else av))
    ∧ (∀ el d, extractProductData el = some d →
        d.adjustedUnitPrice = d.listedUnitPrice * d.discountRatio) := by
  refine ⟨?_, ?_, ?_⟩
  · intro rec
    constructor
    · intro ref href h0 hlt
      rw [parseEndecaRecord_adjusted_def, href]
      exact adjustedReferencePriceOf_eq_mul h0 hlt
    · intro hlt
      rw [parseEndecaRecord_adjusted_def]
      exact adjustedReferencePriceOf_eq_ref _ _ hlt
  · intro res av hav
    exact parseBffRecord_adjusted_def res av hav
  · intro el d h
    exact (extractProductData_spec el d h).2.1

/-- **C2 (counterexample).** An Endeca record with current price 1000,
best deal price 999.5 and reference price 100 gets `discountRatio =
0.9995`, a genuine discount (`ratio ≠ 1`), yet its adjusted reference
price stays at 100 instead of `100 * 0.9995`. -/
theorem parseEndecaRecord_band_gap :
    (parseEndecaRecord exC2Rec).discountRatio = 1999 / 2000
    ∧ (parseEndecaRecord exC2Rec).discountRatio ≠ 1
    ∧ (parseEndecaRecord exC2Rec).referencePrice = some 100
    ∧ (parseEndecaRecord exC2Rec).adjustedReferencePrice = some 100
    ∧ (parseEndecaRecord exC2Rec).adjustedReferencePrice
        ≠ some (100 * (parseEndecaRecord exC2Rec).discountRatio) := by
  have hbest : bestEffectivePrice exC2Rec.dtoDescuentos = some (1999 / 2) := by
    simp +decide [exC2Rec, bestEffectivePrice, bestStep, jsMatchNumber, digitsValN, digVal,
      fracValQ]
    norm_num
  have hap : jsParseFloat (jsOrDefault (attrGet exC2Rec.attributes "sku.activePrice") "0").data
      = some 1000 := by
    simp +decide [exC2Rec, attrGet, jsOrDefault, jsParseFloat, replaceFirstComma,
      fracValQ, digitsValN, digVal]
  have href : jsParseFloat
      (jsOrDefault (attrGet exC2Rec.attributes "sku.referencePrice") "0").data
      = some 100 := by
    simp +decide [exC2Rec, attrGet, jsOrDefault, jsParseFloat, replaceFirstComma,
      fracValQ, digitsValN, digVal]
  have hratio : (parseEndecaRecord exC2Rec).discountRatio = 1999 / 2000 := by
    rw [parseEndecaRecord_ratio_def, hap]
    have := (calcDiscountRatio_dto_fires exC2Rec.dtoDescuentos
      (attrGet exC2Rec.attributes) (by norm_num : (0:ℚ) < 1000) hbest (by norm_num)).1
    rw [this]
    norm_num
  have hrefp : (parseEndecaRecord exC2Rec).referencePrice = some 100 := by
    rw [parseEndecaRecord_reference_def, href]
  have hnotlt : ¬ (parseEndecaRecord exC2Rec).discountRatio < 999 / 1000 := by
    rw [hratio]
    norm_num
  have hadj : (parseEndecaRecord exC2Rec).adjustedReferencePrice = some 100 := by
    rw [parseEndecaRecord_adjusted_def, adjustedReferencePriceOf_eq_ref _ _ hnotlt, hrefp]
  refine ⟨hratio, by rw [hratio]; norm_num, hrefp, hadj, ?_⟩
  rw [hadj, hratio]
  intro h
  have := Option.some.inj h
  norm_num at this


/-- **C3 (amended).** Dialect-B active-price rule: the active price is the
JS-`||` chain `product_list_price || max(candidates) || min(candidates) ||
0` over tax-converted positive price entries — equivalently, a nonzero
list price always wins outright, and only when the list price is absent
or zero does the maximum converted entry apply.  The discount ratio then
compares the minimum converted entry against that active price. -/
theorem parseBffRecord_activePrice_rule :
    ∀ res : BffResult,
      (parseBffRecord res).activePrice
        = some (orNZ (numOrZero (res.data.getD BffData.empty).product_list_price)
            (maxPriceOf ((((res.data.getD BffData.empty).price.getD []).map
              (fun p => fromWithoutTax p.priceWithoutTax)).filter (fun n => 0 < n))))
      ∧ (numOrZero (res.data.getD BffData.empty).product_list_price ≠ 0 →
          (parseBffRecord res).activePrice
            = some (numOrZero (res.data.getD BffData.empty).product_list_price))
      ∧ (parseBffRecord res).discountRatio
          = bffDiscountRatioOf
              (minPriceOf ((((res.data.getD BffData.empty).price.getD []).map
                (fun p => fromWithoutTax p.priceWithoutTax)).filter (fun n => 0 < n)))
              (orNZ (numOrZero (res.data.getD BffData.empty).product_list_price)
                (maxPriceOf ((((res.data.getD BffData.empty).price.getD []).map
                  (fun p => fromWithoutTax p.priceWithoutTax)).filter (fun n => 0 < n)))) := by
  intro res
  have hcollapse : orNZ (maxPriceOf ((((res.data.getD BffData.empty).price.getD []).map
        (fun p => fromWithoutTax p.priceWithoutTax)).filter (fun n => 0 < n)))
      (orNZ (minPriceOf ((((res.data.getD BffData.empty).price.getD []).map
        (fun p => fromWithoutTax p.priceWithoutTax)).filter (fun n => 0 < n))) 0)
      = maxPriceOf ((((res.data.getD BffData.empty).price.getD []).map
        (fun p => fromWithoutTax p.priceWithoutTax)).filter (fun n => 0 < n)) :=
    orNZ_max_min _ mem_filter_pos
  refine ⟨?_, ?_, ?_⟩
  · rw [parseBffRecord_activePrice_def, hcollapse]
  · intro hlp
    rw [parseBffRecord_activePrice_def, hcollapse]
    unfold orNZ
    rw [if_pos hlp]
  · rw [parseBffRecord_ratio_def, hcollapse]

/-- **C3 (counterexample).** A BFF result with list price 100 and one
price entry converting to 121: the active price is 100 (the list price
wins the `||` chain), not the maximum 121 of list price and converted
entries. -/
theorem parseBffRecord_listPrice_wins :
    (parseBffRecord exC3Res).activePrice = some 100
    ∧ max (100 : ℚ) (fromWithoutTax (some 100)) = 121
    ∧ (100 : ℚ) ≠ 121 := by
  refine ⟨?_, ?_, by norm_num⟩
  · rw [parseBffRecord_activePrice_def]
    have h1 : fromWithoutTax (some 100) = 121 := by
      simp +decide [fromWithoutTax, numOrZero]
      norm_num
    simp +decide [exC3Res, BffData.empty, numOrZero, orNZ, maxPriceOf, minPriceOf, h1]
  · have h1 : fromWithoutTax (some 100) = 121 := by
      simp +decide [fromWithoutTax, numOrZero]
      norm_num
    rw [h1]
    norm_num


/-- **C9.** Fallback behaviour of `scrapeAllPages`: when the dialect-A
first response is not HTTP-ok or lacks the results container, the call
equals `scrapeViaBff` on the dialect-B world for the entire call; when
dialect B then succeeds with a non-empty first-page record set, the call
returns a non-empty product list; and a structural failure inside dialect
B (a valid fetch whose body lacks `response.results`) is terminal and
surfaces as the corresponding error. -/
theorem scrapeAllPages_fallback (w : ScrapeWorld)
    (hA : (w.endeca.fetch 0).ok = false
        ∨ findResultsList (w.endeca.fetch 0).data = none) :
    scrapeAllPages w = scrapeViaBff w.bff
    ∧ (∀ ps, scrapeViaBff w.bff = Except.ok ps →
        ∀ rs, bffResults (w.bff.fetch 1).data = some rs → rs ≠ [] → ps ≠ [])
    ∧ (w.bff.urlFound = true → (w.bff.fetch 1).ok = true →
        bffResults (w.bff.fetch 1).data = none →
        scrapeAllPages w = Except.error "BFF response inválida: falta response.results") := by
  have hErr : ∃ e, scrapeViaEndeca w.endeca = Except.error e := by
    by_cases hok : (w.endeca.fetch 0).ok = false
    · refine ⟨"Endeca API error", ?_⟩
      unfold scrapeViaEndeca
      simp only []
      rw [hok, if_pos rfl]
    · have hok' : (w.endeca.fetch 0).ok = true := by
        cases hb : (w.endeca.fetch 0).ok
        · exact absurd hb hok
        · rfl
      have hnone : findResultsList (w.endeca.fetch 0).data = none := by
        rcases hA with h | h
        · exact absurd h hok
        · exact h
      refine ⟨"Endeca response sin Category_ResultsList", ?_⟩
      unfold scrapeViaEndeca
      simp only []
      rw [hok', hnone]
      simp
  obtain ⟨e, he⟩ := hErr
  have h1 : scrapeAllPages w = scrapeViaBff w.bff := by
    unfold scrapeAllPages
    rw [he]
  refine ⟨h1, ?_, ?_⟩
  · intro ps hps rs hrs hne
    unfold scrapeViaBff at hps
    cases hurl : w.bff.urlFound with
    | false =>
      rw [hurl] at hps
      simp at hps
    | true =>
      rw [hurl] at hps
      simp only [] at hps
      cases hok1 : (w.bff.fetch 1).ok with
      | false =>
        rw [hok1] at hps
        simp at hps
      | true =>
        rw [hok1] at hps
        rw [hrs] at hps
        simp only [] at hps
        cases hrest : scrapeBffRest w.bff (List.range' 2
            (max 1 (((match (w.bff.fetch 1).data.response.bind (fun i => i.total_num_results) with
                | some n => if n = 0 then rs.length else n
                | none => rs.length) + max 1 (w.bff.nrppParam.getD 24) - 1)
              / max 1 (w.bff.nrppParam.getD 24)) - 1)) with
        | error e2 =>
          rw [hrest] at hps
          simp at hps
        | ok later =>
          rw [hrest] at hps
          simp only [] at hps
          have hps' := Except.ok.inj hps
          rw [← hps']
          intro hcon
          rcases List.append_eq_nil.mp hcon with ⟨hmap, _⟩
          exact hne (List.map_eq_nil_iff.mp hmap)
  · intro hurl hok1 hnone
    rw [h1]
    unfold scrapeViaBff
    rw [hurl]
    simp only []
    rw [hok1, hnone]
    simp


/-- Concrete fallback run: a dialect-A response without the results
container falls through to dialect B, which returns the one parsed
record. -/
theorem scrapeAllPages_fallback_witness :
    scrapeAllPages { endeca := exEndecaNoList, bff := exBffOnePage }
      = scrapeViaBff exBffOnePage
    ∧ scrapeViaBff exBffOnePage = Except.ok [parseBffRecord exC3Res]
    ∧ ([parseBffRecord exC3Res] : List Product) ≠ [] := by
  have h := (scrapeAllPages_fallback { endeca := exEndecaNoList, bff := exBffOnePage }
      (Or.inr rfl)).1
  exact ⟨h, rfl, by simp⟩

end CotoSorter
